import Mathlib

/-!
Verification of the GithubSync tool (`src/githubbackup.py`).

The development shallowly embeds the program:

* Python strings become `String`; the Python string operations the program
  uses (`str.split()`, `str.split` on a newline, `str.strip()`, `str.replace`,
  `file.readlines()`) are reimplemented with their Python semantics.
* `base64.b64encode(content.encode()).decode()` and
  `base64.b64decode(data).decode("utf-8")` are modelled by executable UTF-8 and
  base64 codecs defined below, with a proved round-trip.
* The GitHub remote is external to the repository; following the spec
  (section 6), it is modelled as the generic Git Data store the design
  requires: content-addressed blob/tree/commit tables plus a single mutable
  branch reference.  Shas are allocated from a counter.  A ghost `trace` field
  records the API requests performed, and a ghost `budget` field is a failure
  oracle that makes a chosen request fail, so that temporal claims about
  failures mid-sequence can be stated.
* Exceptions become `Except PyErr`; a raised exception aborts the client but
  keeps the remote mutations already performed, so client operations live in
  `M α := Remote → Except PyErr α × Remote`.
-/

/-- The exception classes the Python program can raise. -/
inductive PyErr where
  /-- A network-level failure of a request (injected by the failure oracle). -/
  | netError : PyErr
  /-- Python `IndexError`, e.g. `[].split()[0]` or a missing list index. -/
  | indexError : PyErr
  /-- Python `KeyError` on a dictionary, carrying the missing key. -/
  | keyError : String → PyErr
  /-- Python `TypeError` (subscripting a non-dictionary). -/
  | typeError : PyErr
  /-- Python decode errors (`binascii.Error` / `UnicodeDecodeError`). -/
  | valueError : PyErr
  /-- Python `FileNotFoundError` when opening a local path. -/
  | fileNotFound : String → PyErr
  /-- A `raise Exception(msg)` in the program, carrying the message. -/
  | exn : String → PyErr
deriving DecidableEq, Repr

deriving instance DecidableEq for Except

/-- Python `str.isspace` on the ASCII whitespace the program can meet. -/
def pyIsSpace (c : Char) : Bool :=
  c = ' ' || c = '\t' || c = '\n' || c = '\r' || c = '\x0b' || c = '\x0c'

/-- Worker for `pySplitWs`: `cs` is the remaining input, `cur` the current
word reversed. -/
def pySplitWsGo : List Char → List Char → List String
  | [], [] => []
  | [], cur => [String.mk cur.reverse]
  | c :: rest, cur =>
    if pyIsSpace c then
      match cur with
      | [] => pySplitWsGo rest []
      | _ => String.mk cur.reverse :: pySplitWsGo rest []
    else pySplitWsGo rest (c :: cur)

/-- Python `s.split()` (no argument): split on whitespace runs, dropping
empty fields. -/
def pySplitWs (s : String) : List String := pySplitWsGo s.data []

/-- Worker for `pySplitNl`. -/
def pySplitNlGo : List Char → List Char → List String
  | [], cur => [String.mk cur.reverse]
  | c :: rest, cur =>
    if c = '\n' then String.mk cur.reverse :: pySplitNlGo rest []
    else pySplitNlGo rest (c :: cur)

/-- Python `s.split("\n")`: split at each newline, keeping empty fields. -/
def pySplitNl (s : String) : List String := pySplitNlGo s.data []

/-- Python `s.strip()`: drop leading and trailing whitespace. -/
def pyStrip (s : String) : String :=
  String.mk (((s.data.dropWhile pyIsSpace).reverse.dropWhile pyIsSpace).reverse)

/-- Worker for `pyReadlines`. -/
def pyReadlinesGo : List Char → List Char → List String
  | [], [] => []
  | [], cur => [String.mk cur.reverse]
  | c :: rest, cur =>
    if c = '\n' then String.mk (c :: cur).reverse :: pyReadlinesGo rest []
    else pyReadlinesGo rest (c :: cur)

/-- Python `file.readlines()`: split after each newline, keeping the newline
at the end of each line; no empty final line. -/
def pyReadlines (s : String) : List String := pyReadlinesGo s.data []

/-- Concatenation of lines, as `file.writelines(lines)` writes them. -/
def joinLines (lines : List String) : String := lines.foldl (fun a b => a ++ b) ""

/-- Python `s.replace("~", home)`: every occurrence of `~` is replaced.
This embeds `temp[2].replace('~', self.homeDir)` from `readLocalFiles` and
`readRemoteFiles`. -/
def pyReplaceTilde (home : String) (s : String) : String :=
  String.mk (s.data.flatMap (fun c => if c = '~' then home.data else [c]))

/-- UTF-8 encoding of one code point (`str.encode()` per character). -/
def utf8Char (n : Nat) : List Nat :=
  if n < 128 then [n]
  else if n < 2048 then [192 + n / 64, 128 + n % 64]
  else if n < 65536 then [224 + n / 4096, 128 + n / 64 % 64, 128 + n % 64]
  else [240 + n / 262144, 128 + n / 4096 % 64, 128 + n / 64 % 64, 128 + n % 64]

/-- UTF-8 encoding of a string (Python `s.encode()`), as a byte list. -/
def utf8Encode (s : String) : List Nat := s.data.flatMap (fun c => utf8Char c.toNat)

/-- Is `b` a UTF-8 continuation byte? -/
def utf8Cont (b : Nat) : Bool := 128 ≤ b && b < 192

/-- Decode one UTF-8 sequence from leading byte `b` and remaining bytes
`rest`: the code point and the bytes left over, or `none` if malformed. -/
def utf8DecodeOne (b : Nat) (rest : List Nat) : Option (Nat × List Nat) :=
  if b < 128 then some (b, rest)
  else if b < 192 then none
  else if b < 224 then
    match rest with
    | b1 :: r => if utf8Cont b1 then some ((b - 192) * 64 + (b1 - 128), r) else none
    | [] => none
  else if b < 240 then
    match rest with
    | b1 :: b2 :: r =>
      if utf8Cont b1 && utf8Cont b2 then
        some ((b - 224) * 4096 + (b1 - 128) * 64 + (b2 - 128), r)
      else none
    | _ => none
  else
    match rest with
    | b1 :: b2 :: b3 :: r =>
      if utf8Cont b1 && utf8Cont b2 && utf8Cont b3 then
        some ((b - 240) * 262144 + (b1 - 128) * 4096 + (b2 - 128) * 64 + (b3 - 128), r)
      else none
    | _ => none

/-- Fuelled UTF-8 decoding worker; one unit of fuel per decoded code point. -/
def utf8DecodeF : Nat → List Nat → Option (List Nat)
  | _, [] => some []
  | 0, _ :: _ => none
  | fuel + 1, b :: rest =>
    match utf8DecodeOne b rest with
    | some (n, r) => (utf8DecodeF fuel r).map (n :: ·)
    | none => none

/-- UTF-8 decoding of a byte list to code points (Python `bytes.decode("utf-8")`);
`none` on malformed input.  The list's length bounds the number of code points,
so it serves as fuel. -/
def utf8Decode (l : List Nat) : Option (List Nat) := utf8DecodeF l.length l

/-- A code point as a `Char`, when valid. -/
def natToChar? (n : Nat) : Option Char :=
  if n.isValidChar then some (Char.ofNat n) else none

/-- Code points back to a string; `none` if one is not a valid scalar value. -/
def natsToStr? (l : List Nat) : Option String :=
  (l.mapM natToChar?).map String.mk

/-- The base64 alphabet: sextet to character. -/
def sextetChar (n : Nat) : Char :=
  if n < 26 then Char.ofNat (65 + n)
  else if n < 52 then Char.ofNat (97 + (n - 26))
  else if n < 62 then Char.ofNat (48 + (n - 52))
  else if n = 62 then '+'
  else '/'

/-- The base64 alphabet: character back to sextet. -/
def charSextet (c : Char) : Option Nat :=
  if 65 ≤ c.toNat && c.toNat ≤ 90 then some (c.toNat - 65)
  else if 97 ≤ c.toNat && c.toNat ≤ 122 then some (c.toNat - 97 + 26)
  else if 48 ≤ c.toNat && c.toNat ≤ 57 then some (c.toNat - 48 + 52)
  else if c = '+' then some 62
  else if c = '/' then some 63
  else none

/-- base64 encoding of a byte list (`base64.b64encode`), with padding. -/
def b64e : List Nat → List Char
  | [] => []
  | [b0] => [sextetChar (b0 / 4), sextetChar (b0 % 4 * 16), '=', '=']
  | [b0, b1] =>
    [sextetChar (b0 / 4), sextetChar (b0 % 4 * 16 + b1 / 16), sextetChar (b1 % 16 * 4), '=']
  | b0 :: b1 :: b2 :: rest =>
    sextetChar (b0 / 4) :: sextetChar (b0 % 4 * 16 + b1 / 16) ::
      sextetChar (b1 % 16 * 4 + b2 / 64) :: sextetChar (b2 % 64) :: b64e rest

/-- Decoding of one base64 quantum of four characters. -/
def b64group (c0 c1 c2 c3 : Char) : Option (List Nat) :=
  match charSextet c0, charSextet c1 with
  | some s0, some s1 =>
    if c2 = '=' then some [s0 * 4 + s1 / 16]
    else
      match charSextet c2 with
      | some s2 =>
        if c3 = '=' then some [s0 * 4 + s1 / 16, s1 % 16 * 16 + s2 / 4]
        else
          match charSextet c3 with
          | some s3 => some [s0 * 4 + s1 / 16, s1 % 16 * 16 + s2 / 4, s2 % 4 * 64 + s3]
          | none => none
      | none => none
  | _, _ => none

/-- base64 decoding (`base64.b64decode`); `none` on malformed input. -/
def b64d : List Char → Option (List Nat)
  | [] => some []
  | c0 :: c1 :: c2 :: c3 :: rest =>
    match b64group c0 c1 c2 c3, b64d rest with
    | some g, some r => some (g ++ r)
    | _, _ => none
  | _ => none

/-- `base64.b64encode(content.encode()).decode()` from `_createNewBlob` and
`_createFile`. -/
def b64encodeStr (s : String) : String := String.mk (b64e (utf8Encode s))

/-- `base64.b64decode(data).decode("utf-8")` from `getFile`. -/
def b64decodeStr (s : String) : Option String :=
  (b64d s.data).bind (fun bytes => (utf8Decode bytes).bind natsToStr?)

/-- JSON values, as `res.json()` returns them. -/
inductive Json where
  | jstr : String → Json
  | jnum : Nat → Json
  | jarr : List Json → Json
  | jobj : List (String × Json) → Json

/-- Lookup of a key in a JSON object's field list. -/
def jlookup (k : String) : List (String × Json) → Option Json
  | [] => none
  | (k', v) :: rest => if k' = k then some v else jlookup k rest

/-- An HTTP response as the `requests` library presents it: the status code
and the parsed JSON body. -/
structure HttpResponse where
  statusCode : Nat
  body : Json

/-- What `_queryAPI` returns: the parsed body (`wantJson` true) or the raw
response object. -/
inductive QueryResult where
  | json : Json → QueryResult
  | raw : HttpResponse → QueryResult

/-- `GitHubRepo._queryAPI` (lines 49-78).  The `resp` argument is the response
the provider sends to the dispatched request.  The status-code check in the
source is commented out, so the function inspects only the method string:
a request method outside get/post/put/patch raises, and otherwise the
response is returned whatever its status code is. -/
def queryAPI (resp : HttpResponse) (method : String) (wantJson : Bool) :
    Except PyErr QueryResult :=
  if method = "get" || method = "post" || method = "put" || method = "patch" then
    if wantJson = false then .ok (.raw resp) else .ok (.json resp.body)
  else .error (.exn (method ++ " is not an implemented request method"))

/-- One entry of a Git tree, as `_createNewTreeBlob` builds it (lines 106-112). -/
structure TreeEntry where
  path : String
  mode : String
  type : String
  sha : Nat
deriving DecidableEq, Repr

/-- A Git commit object held by the provider. -/
structure CommitObj where
  tree : Nat
  parents : List Nat
  message : String
deriving DecidableEq, Repr

/-- The kinds of API request the client can issue (ghost bookkeeping). -/
inductive ApiEvent where
  | blobCreate | treeCreate | treeRead | commitCreate | commitRead
  | refRead | refUpdate | contentsGet | contentsPut
deriving DecidableEq, Repr

/-- The remote repository, modelled per spec section 6 as content-addressed
blob/tree/commit stores plus one mutable branch reference.  `fresh` allocates
shas; `trace` (ghost) records performed requests; `budget` (ghost) is a
failure oracle: `some k` makes the k-th next request fail at network level. -/
structure Remote where
  blobs : List (Nat × String)
  trees : List (Nat × List TreeEntry)
  commits : List (Nat × CommitObj)
  head : Option Nat
  fresh : Nat
  trace : List ApiEvent
  budget : Option Nat
deriving DecidableEq, Repr

/-- Association-list lookup keyed by sha (first match wins). -/
def alook {α : Type} : Nat → List (Nat × α) → Option α
  | _, [] => none
  | k, (k', v) :: rest => if k' = k then some v else alook k rest

/-- Client computations: state passing over the remote; a raised exception
aborts the client but keeps the remote mutations performed so far. -/
def M (α : Type) : Type := Remote → Except PyErr α × Remote

/-- `pure` for `M`. -/
def M.pure {α : Type} (a : α) : M α := fun r => (.ok a, r)

/-- `bind` for `M`. -/
def M.bind {α β : Type} (m : M α) (f : α → M β) : M β := fun r =>
  match m r with
  | (.ok a, r') => f a r'
  | (.error e, r') => (.error e, r')

instance : Monad M where
  pure := M.pure
  bind := M.bind

/-- Raise an exception. -/
def throwE {α : Type} (e : PyErr) : M α := fun r => (.error e, r)

/-- Read a pure function of the remote state (a provider response that does
not mutate anything). -/
def readR {α : Type} (f : Remote → α) : M α := fun r => (.ok (f r), r)

/-- Perform one API request: consult the failure oracle, and on success
record the request in the trace. -/
def tick (e : ApiEvent) : M Unit := fun r =>
  match r.budget with
  | none => (.ok (), { r with trace := r.trace ++ [e] })
  | some 0 => (.error .netError, r)
  | some (k + 1) => (.ok (), { r with budget := some k, trace := r.trace ++ [e] })

/-- `GitHubRepo.fileMode`. -/
def fileMode : String := "100644"

/-- `GitHubRepo.emptyTreeSha`, the provider's well-known empty tree
(`4b825dc...`), given sha `0` in the model; well-formed states carry it. -/
def emptyTreeSha : Nat := 0

/-- `GitHubRepo._getPreviousCommit` (lines 80-85): read the branch reference;
the provider answers 409 exactly when the repository has no commits, and the
code then returns `None`; otherwise the head commit sha is returned. -/
def getPreviousCommit : M (Option Nat) := do
  tick .refRead
  readR Remote.head

/-- `GitHubRepo._getBranchTree` (lines 87-90): read the commit object, then
read its tree; a missing commit yields a 404 body in which the `commit` key
lookup raises `KeyError`. -/
def getBranchTree (previousCommit : Option Nat) : M Nat := do
  tick .commitRead
  match previousCommit with
  | none => throwE (.keyError "commit")
  | some prev => do
    let c? ← readR (fun r => alook prev r.commits)
    match c? with
    | none => throwE (.keyError "commit")
    | some c => do
      tick .treeRead
      let t? ← readR (fun r => alook c.tree r.trees)
      match t? with
      | none => throwE (.keyError "sha")
      | some _ => pure c.tree

/-- `GitHubRepo._createNewBlob` (lines 92-104): post the base64-encoded
content; the provider stores the payload under a fresh sha. -/
def createNewBlob (content : String) : M Nat := do
  tick .blobCreate
  fun r =>
    (.ok r.fresh,
      { r with blobs := r.blobs ++ [(r.fresh, b64encodeStr content)], fresh := r.fresh + 1 })

/-- `GitHubRepo._createNewTreeBlob` (lines 106-112). -/
def createNewTreeBlob (path : String) (fileType : String) (sha : Nat) : TreeEntry :=
  ⟨path, fileType, "blob", sha⟩

/-- Provider-side merge of one entry into a tree: an entry with the same path
is replaced, otherwise the entry is appended. -/
def upsertEntry : List TreeEntry → TreeEntry → List TreeEntry
  | [], e => [e]
  | a :: rest, e => if a.path = e.path then e :: rest else a :: upsertEntry rest e

/-- Allocate a new tree object. -/
def allocTree (entries : List TreeEntry) : M Nat := fun r =>
  (.ok r.fresh, { r with trees := r.trees ++ [(r.fresh, entries)], fresh := r.fresh + 1 })

/-- `GitHubRepo._createTree` (lines 114-120): post a tree with no base. -/
def createTree (blobs : List TreeEntry) : M Nat := do
  tick .treeCreate
  allocTree (blobs.foldl upsertEntry [])

/-- `GitHubRepo._updateTree` (lines 122-129): post a tree on a base tree;
an unknown base makes the provider answer without a `sha` key. -/
def updateTree (treeSha : Nat) (newBlobs : List TreeEntry) : M Nat := do
  tick .treeCreate
  let base? ← readR (fun r => alook treeSha r.trees)
  match base? with
  | none => throwE (.keyError "sha")
  | some base => allocTree (newBlobs.foldl upsertEntry base)

/-- The request payload `_commitTree` builds (lines 131-137): the `parents`
field is present exactly when a previous commit sha is supplied. -/
def commitRequest (treeSha : Nat) (previousCommitSha : Option Nat) (message : String) :
    List (String × String) :=
  [("message", message), ("tree", toString treeSha)] ++
    (match previousCommitSha with
     | none => []
     | some p => [("parents", toString p)])

/-- `GitHubRepo._commitTree` (lines 131-140): post a commit; the provider
validates that the tree and the parents exist, else answers without `sha`. -/
def commitTree (treeSha : Nat) (previousCommitSha : Option Nat) (message : String) : M Nat := do
  tick .commitCreate
  fun r =>
    let parents : List Nat :=
      match previousCommitSha with
      | none => []
      | some p => [p]
    if (alook treeSha r.trees).isSome && parents.all (fun p => (alook p r.commits).isSome) then
      (.ok r.fresh,
        { r with commits := r.commits ++ [(r.fresh, ⟨treeSha, parents, message⟩)],
                 fresh := r.fresh + 1 })
    else (.error (.keyError "sha"), r)

/-- `GitHubRepo._updateBranchReference` (lines 142-150): patch the branch
reference to the given commit; the response is discarded by the code, and the
reference is the mutable pointer of spec section 6. -/
def updateBranchReference (commitSha : Nat) (_force : Bool) : M Unit := do
  tick .refUpdate
  fun r => (.ok (), { r with head := some commitSha })

/-- The tree of the current head commit, if any (what the contents API
serves from). -/
def headTree (r : Remote) : List TreeEntry :=
  match r.head with
  | none => []
  | some c =>
    match alook c r.commits with
    | none => []
    | some co => (alook co.tree r.trees).getD []

/-- First tree entry with the given path. -/
def lookupPath (entries : List TreeEntry) (path : String) : Option TreeEntry :=
  entries.find? (fun e => e.path = path)

/-- `GitHubRepo._createFile` (lines 160-168): the contents PUT endpoint;
the provider creates a commit on the branch adding the file (parent the
current head when one exists) and answers with the new blob's sha. -/
def createFile (contents : String) (path : String) (message : String) (_branch : String) :
    M Nat := do
  tick .contentsPut
  fun r =>
    let blobSha := r.fresh
    let treeSha := r.fresh + 1
    let commitSha := r.fresh + 2
    let newTree := upsertEntry (headTree r) ⟨path, fileMode, "blob", blobSha⟩
    (.ok blobSha,
      { r with
          blobs := r.blobs ++ [(blobSha, b64encodeStr contents)]
          trees := r.trees ++ [(treeSha, newTree)]
          commits := r.commits ++
            [(commitSha, ⟨treeSha, (match r.head with | none => [] | some c => [c]), message⟩)]
          head := some commitSha
          fresh := r.fresh + 3 })

/-- `GitHubRepo._createBranch` (lines 152-158). -/
def createBranch (branchName : String) : M Unit := do
  let _ ← createFile "" ".master" "" branchName
  let commitSha ← commitTree emptyTreeSha none "Initial Commit"
  updateBranchReference commitSha false

/-- The provider's answer to a contents GET: the file object with the stored
base64 `content` when the path is in the branch head's tree, a `Not Found`
body otherwise. -/
def contentsResponse (r : Remote) (path : String) : Json :=
  match lookupPath (headTree r) path with
  | none => Json.jobj [("message", Json.jstr "Not Found")]
  | some e =>
    match alook e.sha r.blobs with
    | none => Json.jobj [("message", Json.jstr "Not Found")]
    | some payload => Json.jobj [("content", Json.jstr payload), ("sha", Json.jnum e.sha)]

/-- The response processing of `GitHubRepo.getFile` (lines 174-179): a JSON
array (a directory listing) raises the is-a-directory exception; otherwise
the `content` field is base64-decoded. -/
def getFileResp (path : String) (j : Json) : Except PyErr String :=
  match j with
  | .jarr _ => .error (.exn (path ++ " is a directory!"))
  | .jobj fields =>
    match jlookup "content" fields with
    | some (.jstr c) =>
      match b64decodeStr c with
      | some s => .ok s
      | none => .error .valueError
    | some _ => .error .typeError
    | none => .error (.keyError "content")
  | _ => .error .typeError

/-- `GitHubRepo.getFile` (lines 170-179). -/
def getFile (path : String) : M String := do
  tick .contentsGet
  let j ← readR (fun r => contentsResponse r path)
  match getFileResp path j with
  | .ok s => pure s
  | .error e => throwE e

/-- One registered file as the program's per-file dictionaries hold it. -/
structure FileEntry where
  localPath : String
  contents : String
deriving DecidableEq, Repr

/-- Python dictionary insertion: an existing key keeps its position and gets
the new value; a new key is appended. -/
def dictInsert {α : Type} (k : String) (v : α) :
    List (String × α) → List (String × α)
  | [] => [(k, v)]
  | (k', v') :: rest => if k' = k then (k, v) :: rest else (k', v') :: dictInsert k v rest

/-- The per-line parsing step shared by the readers: `temp = line.split()`
followed by `temp[0]` and `temp[2]`; a line with fewer than three fields
raises `IndexError`. -/
def parseLine (line : String) : Except PyErr (String × String) :=
  match pySplitWs line with
  | t0 :: _ :: t2 :: _ => .ok (t0, t2)
  | _ => .error .indexError

/-- The manifest parsing of `readRemoteFiles` (lines 182-186): strip the
file, split on newlines, drop the header line, and take fields 0 and 2 of
every remaining line (blank lines are not skipped and raise `IndexError`). -/
def parseMaster (mf : String) : Except PyErr (List (String × String)) :=
  ((pySplitNl (pyStrip mf)).drop 1).foldlM
    (fun acc line => do
      let p ← parseLine line
      pure (acc ++ [p]))
    []

/-- The fetch loop of `readRemoteFiles` (lines 184-190), over the raw lines:
for each line, resolve field 2 and fetch field 0 from the remote. -/
def fetchLines (homeDir : String) (lines : List String)
    (acc : List (String × FileEntry)) : M (List (String × FileEntry)) :=
  lines.foldlM
    (fun acc line => do
      match parseLine line with
      | .ok (t0, t2) => do
        let contents ← getFile t0
        pure (dictInsert t0 ⟨pyReplaceTilde homeDir t2, contents⟩ acc)
      | .error e => throwE e)
    acc

/-- `GitHubRepo.readRemoteFiles` (lines 181-191). -/
def readRemoteFiles (homeDir : String) : M (List (String × FileEntry)) := do
  let mf ← getFile ".master"
  fetchLines homeDir ((pySplitNl (pyStrip mf)).drop 1) []

/-- The local filesystem: path to content. -/
def LocalFs : Type := List (String × String)

/-- Lookup of a path on the local filesystem. -/
def fsRead (fs : LocalFs) (path : String) : Option String :=
  match fs.find? (fun p => p.1 = path) with
  | some p => some p.2
  | none => none

/-- `GitHubRepo.readLocalFiles` (lines 193-210): parse the local `.master`,
skipping blank lines, resolve field 2, and read each local file. -/
def readLocalFiles (homeDir : String) (master : String) (fs : LocalFs) :
    Except PyErr (List (String × FileEntry)) :=
  ((pySplitNl (pyStrip master)).drop 1).foldlM
    (fun acc line =>
      if pyStrip line = "" then .ok acc
      else do
        let p ← parseLine line
        let localPath := pyReplaceTilde homeDir p.2
        match fsRead fs localPath with
        | none => .error (.fileNotFound localPath)
        | some contents => .ok (dictInsert p.1 ⟨localPath, contents⟩ acc))
    []

/-- `GitHubRepo.writeLocalFiles` (lines 212-216): overwrite each local path
with the fetched content. -/
def writeLocalFiles (registeredFiles : List (String × FileEntry)) (fs : LocalFs) : LocalFs :=
  registeredFiles.foldl (fun fs p => dictInsert p.2.localPath p.2.contents fs) fs

/-- `GitHubRepo.registerFile` (lines 218-220): append a newline and the entry
line to the manifest. -/
def registerFile (remotePath : String) (localPath : String) (timestamp : String)
    (master : String) : String :=
  master ++ ("\n" ++ remotePath ++ " -> " ++ localPath ++ " - " ++ timestamp)

/-- `GitHubRepo.writeRemoteFiles` (lines 222-237). -/
def writeRemoteFiles (registeredFiles : List (String × FileEntry)) : M Unit := do
  let newTreeBlobs ← registeredFiles.foldlM
    (fun acc nf => do
      let newFileSha ← createNewBlob nf.2.contents
      pure (acc ++ [createNewTreeBlob nf.1 fileMode newFileSha]))
    []
  let previousCommitSha1 ← getPreviousCommit
  let previousCommitSha ←
    match previousCommitSha1 with
    | none => do
      createBranch "main"
      getPreviousCommit
    | some p => M.pure (some p)
  let currentTreeSha ← getBranchTree previousCommitSha
  let newTreeSha ← updateTree currentTreeSha newTreeBlobs
  let newCommitSha ← commitTree newTreeSha previousCommitSha ""
  updateBranchReference newCommitSha false

/-- The loop body of `deregisterFile` (lines 355-358): find the first line
whose first whitespace field equals the name and remove it; a line with no
fields raises `IndexError`; no match is a no-op. -/
def findRemove (fileName : String) : List String → Except PyErr (List String)
  | [] => .ok []
  | line :: rest =>
    match pySplitWs line with
    | [] => .error .indexError
    | f :: _ =>
      if f = fileName then .ok rest
      else (findRemove fileName rest).map (line :: ·)

/-- `deregisterFile` (lines 345-364): read all lines, remove the first whose
first field matches, write the result back; an exception leaves the file
unchanged (the write happens after the loop). -/
def deregisterFile (fileName : String) (master : String) : Except PyErr String :=
  (findRemove fileName (pyReadlines master)).map joinLines

/-- `displayRegisteredFiles` (lines 366-370): print every line after the
first, stripped. -/
def displayRegisteredFiles (master : String) : List String :=
  ((pyReadlines master).drop 1).map pyStrip

/-- The manifest the `__main__` block creates when none exists (lines 412-415). -/
def freshManifest : String := "[FILES]\n"

/-- A repository with no commits, as `createRemoteRepo`/the provider start it:
empty stores (apart from the well-known empty tree), no branch head, no
failure injected. -/
def emptyRepo : Remote :=
  { blobs := [], trees := [(emptyTreeSha, [])], commits := [], head := none,
    fresh := 1, trace := [], budget := none }

/-- Sha-key well-formedness: every stored sha is below the allocation
counter, so fresh allocations never collide. -/
def shaKeysOk (r : Remote) : Prop :=
  (∀ p ∈ r.blobs, p.1 < r.fresh) ∧ (∀ p ∈ r.trees, p.1 < r.fresh) ∧
    (∀ p ∈ r.commits, p.1 < r.fresh)

instance (r : Remote) : Decidable (shaKeysOk r) := by
  unfold shaKeysOk; infer_instance

/-- Whether a commit has no parent, in a given remote. -/
def parentless (r : Remote) (c : Nat) : Bool :=
  match alook c r.commits with
  | none => true
  | some co => co.parents.isEmpty

/-- Worker for `history`: follow first parents, with fuel. -/
def historyGo (commits : List (Nat × CommitObj)) : Nat → Option Nat → List Nat
  | _, none => []
  | 0, some _ => []
  | fuel + 1, some c =>
    c ::
      (match alook c commits with
       | none => []
       | some co => historyGo commits fuel co.parents.head?)

/-- The branch history: commit shas from the head following first parents. -/
def history (r : Remote) : List Nat :=
  historyGo r.commits (r.commits.length + 1) r.head

/-- The tree entries the blob loop of `writeRemoteFiles` builds, when blob
shas are allocated from `k`. -/
def blobEntries : List (String × FileEntry) → Nat → List TreeEntry
  | [], _ => []
  | nf :: rest, k => createNewTreeBlob nf.1 fileMode k :: blobEntries rest (k + 1)

/-- The blob store entries the blob loop of `writeRemoteFiles` creates, when
blob shas are allocated from `k`. -/
def blobPayloads : List (String × FileEntry) → Nat → List (Nat × String)
  | [], _ => []
  | nf :: rest, k => (k, b64encodeStr nf.2.contents) :: blobPayloads rest (k + 1)

/-- Specification form of manifest-line parsing: fields 0 and 2 of every
line, `none` if any line has fewer than three fields. -/
def parsedLines : List String → Option (List (String × String))
  | [] => some []
  | l :: rest =>
    match parseLine l with
    | .ok p => (parsedLines rest).map (p :: ·)
    | .error _ => none

/-- The remote state an upload leaves behind when the branch already has a
head commit `c` whose tree is `base` (the right-hand side of the
`writeRemote_head` run computation, named so it can be passed around). -/
def upState (G : List (String × FileEntry)) (r : Remote) (c : Nat)
    (base : List TreeEntry) : Remote :=
  { r with
      blobs := r.blobs ++ blobPayloads G r.fresh
      trees := r.trees ++
        [(r.fresh + G.length, (blobEntries G r.fresh).foldl upsertEntry base)]
      commits := r.commits ++ [(r.fresh + G.length + 1, ⟨r.fresh + G.length, [c], ""⟩)]
      head := some (r.fresh + G.length + 1)
      fresh := r.fresh + G.length + 2
      trace := r.trace ++ List.replicate G.length ApiEvent.blobCreate ++
        [.refRead, .commitRead, .treeRead, .treeCreate, .commitCreate, .refUpdate] }

/-- A client computation is quiet when it never moves the branch reference
and never issues a reference-update request. -/
def Quiet {α : Type} (m : M α) : Prop :=
  ∀ r res r', m r = (res, r') →
    r'.head = r.head ∧ ∃ es, r'.trace = r.trace ++ es ∧ ApiEvent.refUpdate ∉ es

/-- A client computation updates the branch reference only as its very last
request: on success the trace ends with the only reference update, and on
failure no reference update was issued and the head is unchanged. -/
def RefLast (m : M Unit) : Prop :=
  ∀ r res r', m r = (res, r') →
    (res = .ok () →
      ∃ es, r'.trace = r.trace ++ es ++ [ApiEvent.refUpdate] ∧ ApiEvent.refUpdate ∉ es) ∧
    (∀ e, res = .error e →
      r'.head = r.head ∧ ∃ es, r'.trace = r.trace ++ es ∧ ApiEvent.refUpdate ∉ es)

/-! ### Round trip of the base64 / UTF-8 codec -/

/-- The base64 alphabet map is inverted by `charSextet` (finite check). -/
theorem charSextet_sextetChar_fin : ∀ n : Fin 64, charSextet (sextetChar n.val) = some n.val := by
  decide

/-- The base64 alphabet never produces the padding character (finite check). -/
theorem sextetChar_ne_pad_fin : ∀ n : Fin 64, sextetChar n.val ≠ '=' := by
  decide

/-- The base64 alphabet map is inverted by `charSextet`. -/
theorem charSextet_sextetChar (n : Nat) (h : n < 64) : charSextet (sextetChar n) = some n :=
  charSextet_sextetChar_fin ⟨n, h⟩

/-- The base64 alphabet never produces the padding character. -/
theorem sextetChar_ne_pad (n : Nat) (h : n < 64) : sextetChar n ≠ '=' :=
  sextetChar_ne_pad_fin ⟨n, h⟩

/-- Decoding inverts encoding on byte lists. -/
theorem b64d_b64e : ∀ bs : List Nat, (∀ b ∈ bs, b < 256) → b64d (b64e bs) = some bs
  | [], _ => rfl
  | [b0], h => by
    have hb0 : b0 < 256 := h b0 (by simp)
    have h0 : b0 / 4 < 64 := by omega
    have h1 : b0 % 4 * 16 < 64 := by omega
    simp only [b64e, b64d, b64group, charSextet_sextetChar _ h0, charSextet_sextetChar _ h1,
      if_true, eq_self_iff_true, List.append_nil, Option.some.injEq, List.cons.injEq, and_true]
    omega
  | [b0, b1], h => by
    have hb0 : b0 < 256 := h b0 (by simp)
    have hb1 : b1 < 256 := h b1 (by simp)
    have h0 : b0 / 4 < 64 := by omega
    have h1 : b0 % 4 * 16 + b1 / 16 < 64 := by omega
    have h2 : b1 % 16 * 4 < 64 := by omega
    simp only [b64e, b64d, b64group, charSextet_sextetChar _ h0, charSextet_sextetChar _ h1,
      charSextet_sextetChar _ h2, if_neg (sextetChar_ne_pad _ h2), if_true, eq_self_iff_true,
      List.append_nil, Option.some.injEq, List.cons.injEq, and_true]
    omega
  | b0 :: b1 :: b2 :: rest, h => by
    have hb0 : b0 < 256 := h b0 (by simp)
    have hb1 : b1 < 256 := h b1 (by simp)
    have hb2 : b2 < 256 := h b2 (by simp)
    have h0 : b0 / 4 < 64 := by omega
    have h1 : b0 % 4 * 16 + b1 / 16 < 64 := by omega
    have h2 : b1 % 16 * 4 + b2 / 64 < 64 := by omega
    have h3 : b2 % 64 < 64 := by omega
    have ih := b64d_b64e rest (fun b hb => h b (by simp [hb]))
    have hx0 : b0 / 4 * 4 + (b0 % 4 * 16 + b1 / 16) / 16 = b0 := by omega
    have hx1 : (b0 % 4 * 16 + b1 / 16) % 16 * 16 + (b1 % 16 * 4 + b2 / 64) / 4 = b1 := by omega
    have hx2 : (b1 % 16 * 4 + b2 / 64) % 4 * 64 + b2 % 64 = b2 := by omega
    simp only [b64e, b64d, b64group, charSextet_sextetChar _ h0, charSextet_sextetChar _ h1,
      charSextet_sextetChar _ h2, charSextet_sextetChar _ h3,
      if_neg (sextetChar_ne_pad _ h2), if_neg (sextetChar_ne_pad _ h3), ih, hx0, hx1, hx2]
    rfl

/-- UTF-8 encoding produces bytes. -/
theorem utf8Char_lt (n : Nat) (h : n < 1114112) : ∀ b ∈ utf8Char n, b < 256 := by
  unfold utf8Char
  split_ifs <;> simp_all <;> omega

/-- UTF-8 encoding of a code point is nonempty. -/
theorem utf8Char_length_pos (n : Nat) : 1 ≤ (utf8Char n).length := by
  unfold utf8Char
  split_ifs <;> simp

/-- Every `Char` is a Unicode scalar value. -/
theorem char_toNat_lt (c : Char) : c.toNat < 1114112 := by
  rcases c.valid with h | h
  · exact Nat.lt_trans h (by norm_num)
  · exact h.2

set_option maxRecDepth 4096 in
/-- `utf8DecodeOne` never lengthens the remaining input. -/
theorem utf8DecodeOne_le (b : Nat) (rest : List Nat) (n : Nat) (r : List Nat)
    (h : utf8DecodeOne b rest = some (n, r)) : r.length ≤ rest.length := by
  by_cases h1 : b < 128
  · simp only [utf8DecodeOne, if_pos h1, Option.some.injEq, Prod.mk.injEq] at h
    obtain ⟨-, h2⟩ := h
    subst h2
    exact Nat.le_refl _
  by_cases h2 : b < 192
  · simp only [utf8DecodeOne, if_neg h1, if_pos h2] at h
    exact Option.noConfusion h
  by_cases h3 : b < 224
  · cases rest with
    | nil =>
      simp only [utf8DecodeOne, if_neg h1, if_neg h2, if_pos h3] at h
      exact Option.noConfusion h
    | cons b1 r1 =>
      simp only [utf8DecodeOne, if_neg h1, if_neg h2, if_pos h3] at h
      by_cases hc : utf8Cont b1 = true
      · rw [if_pos hc, Option.some.injEq, Prod.mk.injEq] at h
        obtain ⟨-, h2⟩ := h
        subst h2
        simp
      · rw [if_neg hc] at h
        exact Option.noConfusion h
  by_cases h4 : b < 240
  · match rest with
    | [] =>
      simp only [utf8DecodeOne, if_neg h1, if_neg h2, if_neg h3, if_pos h4] at h
      exact Option.noConfusion h
    | [b1] =>
      simp only [utf8DecodeOne, if_neg h1, if_neg h2, if_neg h3, if_pos h4] at h
      exact Option.noConfusion h
    | b1 :: b2 :: r2 =>
      simp only [utf8DecodeOne, if_neg h1, if_neg h2, if_neg h3, if_pos h4] at h
      by_cases hc : (utf8Cont b1 && utf8Cont b2) = true
      · rw [if_pos hc, Option.some.injEq, Prod.mk.injEq] at h
        obtain ⟨-, hr⟩ := h
        subst hr
        simp only [List.length_cons]
        omega
      · rw [if_neg hc] at h
        exact Option.noConfusion h
  · match rest with
    | [] =>
      simp only [utf8DecodeOne, if_neg h1, if_neg h2, if_neg h3, if_neg h4] at h
      exact Option.noConfusion h
    | [b1] =>
      simp only [utf8DecodeOne, if_neg h1, if_neg h2, if_neg h3, if_neg h4] at h
      exact Option.noConfusion h
    | [b1, b2] =>
      simp only [utf8DecodeOne, if_neg h1, if_neg h2, if_neg h3, if_neg h4] at h
      exact Option.noConfusion h
    | b1 :: b2 :: b3 :: r3 =>
      simp only [utf8DecodeOne, if_neg h1, if_neg h2, if_neg h3, if_neg h4] at h
      by_cases hc : (utf8Cont b1 && utf8Cont b2 && utf8Cont b3) = true
      · rw [if_pos hc, Option.some.injEq, Prod.mk.injEq] at h
        obtain ⟨-, hr⟩ := h
        subst hr
        simp only [List.length_cons]
        omega
      · rw [if_neg hc] at h
        exact Option.noConfusion h

/-- Empty input decodes under any fuel. -/
theorem utf8DecodeF_nil (fuel : Nat) : utf8DecodeF fuel [] = some [] := by
  cases fuel <;> rfl

/-- Fuel does not matter for `utf8DecodeF` once it covers the input length. -/
theorem utf8DecodeF_mono : ∀ (fuel fuel' : Nat) (l : List Nat),
    l.length ≤ fuel → l.length ≤ fuel' → utf8DecodeF fuel l = utf8DecodeF fuel' l
  | _, _, [], _, _ => by rw [utf8DecodeF_nil, utf8DecodeF_nil]
  | 0, _, b :: rest, h, _ => by simp at h
  | _ + 1, 0, b :: rest, _, h' => by simp at h'
  | fuel + 1, fuel' + 1, b :: rest, h, h' => by
    rw [utf8DecodeF, utf8DecodeF]
    cases h1 : utf8DecodeOne b rest with
    | none => rfl
    | some p =>
      obtain ⟨n, r⟩ := p
      have hle := utf8DecodeOne_le b rest n r h1
      simp only [List.length_cons] at h h'
      simp only [utf8DecodeF_mono fuel fuel' r (by omega) (by omega)]

/-- Decoding one encoded code point from the front, any sufficient fuel. -/
theorem utf8DecodeF_char (n : Nat) (rest : List Nat) (fuel : Nat) (h : n < 1114112) :
    utf8DecodeF (fuel + 1) (utf8Char n ++ rest) = (utf8DecodeF fuel rest).map (n :: ·) := by
  unfold utf8Char
  split_ifs with h1 h2 h3
  · simp only [List.cons_append, List.nil_append]
    rw [utf8DecodeF]
    unfold utf8DecodeOne
    rw [if_pos h1]
  · simp only [List.cons_append, List.nil_append]
    rw [utf8DecodeF]
    have hone : utf8DecodeOne (192 + n / 64) ((128 + n % 64) :: rest) = some (n, rest) := by
      unfold utf8DecodeOne
      rw [if_neg (by omega), if_neg (by omega), if_pos (by omega)]
      simp only [utf8Cont, Bool.and_eq_true, decide_eq_true_eq]
      rw [if_pos (by omega)]
      simp only [Option.some.injEq, Prod.mk.injEq, and_true]
      omega
    rw [hone]
  · simp only [List.cons_append, List.nil_append]
    rw [utf8DecodeF]
    have hone : utf8DecodeOne (224 + n / 4096) ((128 + n / 64 % 64) :: (128 + n % 64) :: rest)
        = some (n, rest) := by
      unfold utf8DecodeOne
      rw [if_neg (by omega), if_neg (by omega), if_neg (by omega), if_pos (by omega)]
      simp only [utf8Cont, Bool.and_eq_true, decide_eq_true_eq]
      rw [if_pos (by omega)]
      simp only [Option.some.injEq, Prod.mk.injEq, and_true]
      omega
    rw [hone]
  · simp only [List.cons_append, List.nil_append]
    rw [utf8DecodeF]
    have hone : utf8DecodeOne (240 + n / 262144)
        ((128 + n / 4096 % 64) :: (128 + n / 64 % 64) :: (128 + n % 64) :: rest)
        = some (n, rest) := by
      unfold utf8DecodeOne
      rw [if_neg (by omega), if_neg (by omega), if_neg (by omega), if_neg (by omega)]
      simp only [utf8Cont, Bool.and_eq_true, decide_eq_true_eq]
      rw [if_pos (by omega)]
      simp only [Option.some.injEq, Prod.mk.injEq, and_true]
      omega
    rw [hone]

/-- Decoding one encoded code point from the front of a byte stream. -/
theorem utf8Decode_char (n : Nat) (rest : List Nat) (h : n < 1114112) :
    utf8Decode (utf8Char n ++ rest) = (utf8Decode rest).map (n :: ·) := by
  unfold utf8Decode
  have hlen : (utf8Char n ++ rest).length = (utf8Char n).length + rest.length := by simp
  have hpos := utf8Char_length_pos n
  rw [show (utf8Char n ++ rest).length = ((utf8Char n).length - 1 + rest.length) + 1 by omega]
  rw [utf8DecodeF_char n rest _ h]
  rw [utf8DecodeF_mono ((utf8Char n).length - 1 + rest.length) rest.length rest (by omega)
    (Nat.le_refl _)]

/-- Decoding inverts encoding, at the code-point level. -/
theorem utf8Decode_flat (l : List Char) :
    utf8Decode (l.flatMap (fun c => utf8Char c.toNat)) = some (l.map Char.toNat) := by
  induction l with
  | nil => rfl
  | cons c l ih =>
    simp only [List.flatMap_cons, List.map_cons,
      utf8Decode_char c.toNat _ (char_toNat_lt c), ih]
    rfl

/-- A character's code point converts back to the character. -/
theorem natToChar_toNat (c : Char) : natToChar? c.toNat = some c := by
  have hv : c.toNat.isValidChar := c.valid
  simp only [natToChar?, if_pos hv, Char.ofNat_toNat]

/-- Code points of a character list convert back to the string. -/
theorem natsToStr_map (l : List Char) : natsToStr? (l.map Char.toNat) = some (String.mk l) := by
  unfold natsToStr?
  have hm : (l.map Char.toNat).mapM natToChar? = some l := by
    induction l with
    | nil => rfl
    | cons c l ih => simp only [List.map_cons, List.mapM_cons, natToChar_toNat, ih]; rfl
  rw [hm]
  rfl

/-- `b64decodeStr` inverts `b64encodeStr`: contents survive the round trip
through blob upload and contents download. -/
theorem b64decodeStr_b64encodeStr (s : String) : b64decodeStr (b64encodeStr s) = some s := by
  have hbytes : ∀ b ∈ utf8Encode s, b < 256 := by
    intro b hb
    simp only [utf8Encode, List.mem_flatMap] at hb
    obtain ⟨c, _, hc⟩ := hb
    exact utf8Char_lt c.toNat (char_toNat_lt c) b hc
  show (b64d (b64e (utf8Encode s))).bind _ = some s
  rw [b64d_b64e _ hbytes]
  show (utf8Decode (utf8Encode s)).bind natsToStr? = some s
  rw [show utf8Encode s = s.data.flatMap (fun c => utf8Char c.toNat) from rfl]
  rw [utf8Decode_flat, Option.some_bind, natsToStr_map]

/-! ### String-level helper lemmas -/

/-- A string is its character list. -/
theorem strMk_data (s : String) : String.mk s.data = s := by
  obtain ⟨l⟩ := s
  rfl

/-- String append at the character level. -/
theorem strMk_append (a b : List Char) : String.mk a ++ String.mk b = String.mk (a ++ b) := rfl

/-- `joinLines` with a seed accumulator. -/
theorem joinLines_go (ls : List String) :
    ∀ a : String, List.foldl (fun x y => x ++ y) a ls = a ++ joinLines ls := by
  induction ls with
  | nil => intro a; simp [joinLines]
  | cons l ls ih =>
    intro a
    show List.foldl _ (a ++ l) ls = _
    rw [ih (a ++ l)]
    show _ = a ++ List.foldl _ ("" ++ l) ls
    rw [ih ("" ++ l), String.empty_append, String.append_assoc]

/-- `joinLines` distributes over cons. -/
theorem joinLines_cons (l : String) (ls : List String) :
    joinLines (l :: ls) = l ++ joinLines ls := by
  show List.foldl _ ("" ++ l) ls = _
  rw [joinLines_go ls ("" ++ l), String.empty_append]

/-- Joining what `pyReadlinesGo` produces restores the input. -/
theorem join_readlinesGo : ∀ (l : List Char) (cur : List Char),
    joinLines (pyReadlinesGo l cur) = String.mk (cur.reverse ++ l)
  | [], [] => rfl
  | [], c :: cs => by
    show joinLines [String.mk (c :: cs).reverse] = _
    rw [joinLines_cons]
    show String.mk (c :: cs).reverse ++ "" = _
    rw [String.append_empty, List.append_nil]
  | c :: rest, cur => by
    rw [pyReadlinesGo]
    by_cases hc : c = '\n'
    · rw [if_pos hc, joinLines_cons, join_readlinesGo rest [], hc]
      rw [show (('\n' :: cur).reverse = cur.reverse ++ ['\n']) from List.reverse_cons '\n' cur]
      rw [strMk_append]
      simp [List.append_assoc]
    · rw [if_neg hc, join_readlinesGo rest (c :: cur)]
      rw [show ((c :: cur).reverse = cur.reverse ++ [c]) from List.reverse_cons c cur]
      simp [List.append_assoc]

/-- `file.writelines(file.readlines())` writes the file back unchanged. -/
theorem join_readlines (s : String) : joinLines (pyReadlines s) = s := by
  rw [pyReadlines, join_readlinesGo s.data []]
  show String.mk s.data = s
  exact strMk_data s

/-- `pyReadlinesGo` on a newline-free prefix followed by a newline emits one
line and continues. -/
theorem readlinesGo_line : ∀ (hd : List Char) (rest : List Char) (cur : List Char),
    (∀ c ∈ hd, c ≠ '\n') →
    pyReadlinesGo (hd ++ '\n' :: rest) cur
      = String.mk (cur.reverse ++ hd ++ ['\n']) :: pyReadlinesGo rest []
  | [], rest, cur, _ => by
    rw [List.nil_append, pyReadlinesGo, if_pos rfl]
    simp
  | c :: hd, rest, cur, h => by
    rw [List.cons_append, pyReadlinesGo, if_neg (h c (by simp))]
    rw [readlinesGo_line hd rest (c :: cur) (fun x hx => h x (by simp [hx]))]
    simp [List.append_assoc]

/-- `readlines` of a newline-free line followed by the rest of the file. -/
theorem readlines_line (h rest : String) (hh : '\n' ∉ h.data) :
    pyReadlines (h ++ "\n" ++ rest) = (h ++ "\n") :: pyReadlines rest := by
  rw [pyReadlines, String.data_append, String.data_append]
  rw [show ("\n".data = ['\n']) from rfl, List.append_assoc]
  show pyReadlinesGo (h.data ++ '\n' :: rest.data) [] = _
  rw [readlinesGo_line h.data rest.data [] (fun c hc heq => hh (heq ▸ hc))]
  rw [List.reverse_nil, List.nil_append, pyReadlines]
  show String.mk (h.data ++ "\n".data) :: _ = _
  rw [← String.data_append, strMk_data]

/-! ### C1: error surfacing in `_queryAPI` -/

/-- Claim C1, counterexample: `_queryAPI` receives a 500 response to a POST
(a non-success status), yet returns the parsed body as a value instead of
raising an exception carrying the status code and body — the status check in
the source (lines 70-71) is commented out. -/
theorem c1_counterexample :
    queryAPI ⟨500, Json.jobj [("message", Json.jstr "Internal Server Error")]⟩ "post" true
      = .ok (.json (Json.jobj [("message", Json.jstr "Internal Server Error")])) := rfl

/-- Claim C1, amended: `_queryAPI` never inspects the status code.  For the
four implemented methods it returns the response (parsed body, or the raw
response when `wantJson` is false) whatever the status; the only exception it
itself raises is for an unimplemented method name. -/
theorem c1_amended :
    (∀ (resp : HttpResponse) (wantJson : Bool) (method : String),
        method = "get" ∨ method = "post" ∨ method = "put" ∨ method = "patch" →
        queryAPI resp method wantJson
          = .ok (if wantJson then .json resp.body else .raw resp)) ∧
    (∀ (resp : HttpResponse) (wantJson : Bool) (method : String),
        ¬(method = "get" ∨ method = "post" ∨ method = "put" ∨ method = "patch") →
        queryAPI resp method wantJson
          = .error (.exn (method ++ " is not an implemented request method"))) := by
  constructor
  · intro resp wantJson method hm
    rcases hm with h | h | h | h <;> subst h <;> cases wantJson <;> rfl
  · intro resp wantJson method hm
    unfold queryAPI
    rw [if_neg]
    simp only [Bool.or_eq_true, decide_eq_true_eq]
    intro hc
    exact hm (by tauto)

/-- Witness for `c1_amended` at a concrete 404 GET. -/
theorem c1_witness :
    queryAPI ⟨404, Json.jobj [("message", Json.jstr "Not Found")]⟩ "get" true
      = .ok (.json (Json.jobj [("message", Json.jstr "Not Found")])) :=
  c1_amended.1 ⟨404, Json.jobj [("message", Json.jstr "Not Found")]⟩ true "get" (Or.inl rfl)

/-! ### C3: the manifest header under store operations -/

/-- Claim C3, counterexample: `deregisterFile` iterates from line 0, so the
header line is matched like an entry, and deregistering the name `[FILES]`
removes the sentinel header itself. -/
theorem c3_counterexample :
    deregisterFile "[FILES]" "[FILES]\nnotes.txt -> /n - " = .ok "notes.txt -> /n - " := by
  decide

/-- Claim C3, amended: the reading and listing operations do skip the first
line without inspecting it (conjunct three shows the listing is independent
of the header's content), and for any remote name other than the header's own
first field `[FILES]` a successful deregister keeps the header; but
`deregisterFile` does match the header like data, and deregistering
`[FILES]` removes exactly the header line. -/
theorem c3_amended :
    (∀ (name rest m' : String), name ≠ "[FILES]" →
        deregisterFile name ("[FILES]\n" ++ rest) = .ok m' →
        ∃ rest' : String, m' = "[FILES]\n" ++ rest') ∧
    (∀ rest : String, deregisterFile "[FILES]" ("[FILES]\n" ++ rest) = .ok rest) ∧
    (∀ h1 h2 rest : String, '\n' ∉ h1.data → '\n' ∉ h2.data →
        displayRegisteredFiles (h1 ++ "\n" ++ rest)
          = displayRegisteredFiles (h2 ++ "\n" ++ rest)) := by
  refine ⟨?_, ?_, ?_⟩
  · intro name rest m' hne hok
    unfold deregisterFile at hok
    rw [show ("[FILES]\n" ++ rest) = "[FILES]" ++ "\n" ++ rest from rfl] at hok
    rw [readlines_line "[FILES]" rest (by decide)] at hok
    rw [show findRemove name (("[FILES]" ++ "\n") :: pyReadlines rest)
          = if "[FILES]" = name then .ok (pyReadlines rest)
            else (findRemove name (pyReadlines rest)).map (("[FILES]" ++ "\n") :: ·) from rfl]
      at hok
    rw [if_neg (fun h => hne h.symm)] at hok
    cases hfr : findRemove name (pyReadlines rest) with
    | error e => rw [hfr] at hok; exact Except.noConfusion hok
    | ok ls' =>
      rw [hfr] at hok
      have h2 : Except.ok (ε := PyErr) (joinLines (("[FILES]" ++ "\n") :: ls'))
          = Except.ok m' := hok
      have h3 : joinLines (("[FILES]" ++ "\n") :: ls') = m' := by injection h2
      refine ⟨joinLines ls', ?_⟩
      rw [← h3, joinLines_cons]
      rfl
  · intro rest
    unfold deregisterFile
    rw [show ("[FILES]\n" ++ rest) = "[FILES]" ++ "\n" ++ rest from rfl]
    rw [readlines_line "[FILES]" rest (by decide)]
    rw [show findRemove "[FILES]" (("[FILES]" ++ "\n") :: pyReadlines rest)
          = Except.ok (pyReadlines rest) from rfl]
    show Except.ok (joinLines (pyReadlines rest)) = Except.ok rest
    rw [join_readlines rest]
  · intro h1 h2 rest hn1 hn2
    unfold displayRegisteredFiles
    rw [readlines_line h1 rest hn1, readlines_line h2 rest hn2]
    rfl

/-- Witness for `c3_amended`: deregistering another name keeps the header,
deregistering the header's field removes it, and the listing ignores the
header text. -/
theorem c3_witness :
    (∃ rest' : String,
        joinLines ["[FILES]\n"] = "[FILES]\n" ++ rest') ∧
    deregisterFile "[FILES]" ("[FILES]\n" ++ "a -> /a - x") = .ok "a -> /a - x" ∧
    displayRegisteredFiles ("[FILES]" ++ "\n" ++ "a -> /a - x")
      = displayRegisteredFiles ("HEADER" ++ "\n" ++ "a -> /a - x") := by
  refine ⟨?_, ?_, ?_⟩
  · exact c3_amended.1 "b" "" (joinLines ["[FILES]\n"]) (by decide) (by decide)
  · exact c3_amended.2.1 "a -> /a - x"
  · exact c3_amended.2.2 "[FILES]" "HEADER" "a -> /a - x" (by decide) (by decide)

/-! ### C4 and C5: deregistration on store-produced manifests -/

/-- Claim C4: on the manifest the store itself produces (header line plus a
registration), `deregisterFile` hits the blank line `registerFile` left after
the header and raises `IndexError` from `"".split()[0]`, for a registered
name and for an absent name alike — instead of removing the entry or
no-opping. -/
theorem c4_deregister_crash :
    deregisterFile "notes.txt" (registerFile "notes.txt" "~/notes.txt" "" freshManifest)
      = .error .indexError ∧
    deregisterFile "zzz" (registerFile "notes.txt" "~/notes.txt" "" freshManifest)
      = .error .indexError := by
  decide

/-- Claim C5: after registering `a`, `b`, `c` on a fresh manifest,
deregistering `b` raises `IndexError` (the blank line again), leaving the
manifest unchanged, and the listing then shows a blank row and all three
entries — not `[a, c]`. -/
theorem c5_deregister_then_list :
    deregisterFile "b"
        (registerFile "c" "/c" "" (registerFile "b" "/b" "" (registerFile "a" "/a" ""
          freshManifest)))
      = .error .indexError ∧
    displayRegisteredFiles
        (registerFile "c" "/c" "" (registerFile "b" "/b" "" (registerFile "a" "/a" ""
          freshManifest)))
      = ["", "a -> /a -", "b -> /b -", "c -> /c -"] := by
  decide

/-! ### C8: `getFile` on directories and files -/

/-- Claim C8: when the contents endpoint answers with a JSON array (a
directory listing), `getFile` raises exactly the is-a-directory exception,
before touching any field; when it answers with a file object carrying
base64 `content`, `getFile` returns the decoded content — in particular the
decoded form of any string the client itself uploads. -/
theorem c8_getFile :
    (∀ (path : String) (l : List Json),
        getFileResp path (Json.jarr l) = .error (.exn (path ++ " is a directory!"))) ∧
    (∀ (path : String) (fields : List (String × Json)) (c s : String),
        jlookup "content" fields = some (.jstr c) → b64decodeStr c = some s →
        getFileResp path (.jobj fields) = .ok s) ∧
    (∀ (path s : String) (fields : List (String × Json)),
        jlookup "content" fields = some (.jstr (b64encodeStr s)) →
        getFileResp path (.jobj fields) = .ok s) := by
  refine ⟨?_, ?_, ?_⟩
  · intro path l
    rfl
  · intro path fields c s h1 h2
    simp only [getFileResp, h1, h2]
  · intro path s fields h1
    simp only [getFileResp, h1, b64decodeStr_b64encodeStr s]

/-- Witness for `c8_getFile` on a concrete file object. -/
theorem c8_witness :
    getFileResp "notes.txt" (Json.jobj [("content", Json.jstr (b64encodeStr "hello"))])
      = .ok "hello" :=
  c8_getFile.2.2 "notes.txt" "hello" [("content", Json.jstr (b64encodeStr "hello"))] rfl

/-! ### C9: home-directory expansion -/

/-- Claim C9, counterexample: the code resolves paths with
`str.replace("~", home)`, which rewrites a `~` in the middle of a path too:
`/data/a~b` becomes `/data/a/home/ub`, not the unchanged `/data/a~b` the
claim requires. -/
theorem c9_counterexample :
    pyReplaceTilde "/home/u" "/data/a~b" = "/data/a/home/ub" ∧
    "/data/a/home/ub" ≠ "/data/a~b" := by
  decide

/-- Claim C9, amended: path resolution substitutes the home directory for
every occurrence of `~`, wherever it occurs; a leading marker is expanded as
the claim says, but so is any interior one. -/
theorem c9_amended (home a b : String) (ha : '~' ∉ a.data) (hb : '~' ∉ b.data) :
    pyReplaceTilde home (a ++ "~" ++ b) = a ++ home ++ b := by
  have hid : ∀ (l : List Char), '~' ∉ l →
      l.flatMap (fun c => if c = '~' then home.data else [c]) = l := by
    intro l hl
    induction l with
    | nil => rfl
    | cons c cs ih =>
      have hc : c ≠ '~' := fun h => hl (by rw [h]; exact List.mem_cons_self _ _)
      rw [List.flatMap_cons, if_neg hc, ih (fun h => hl (List.mem_cons_of_mem c h))]
      rfl
  unfold pyReplaceTilde
  rw [String.data_append, String.data_append]
  rw [show ("~".data = ['~']) from rfl]
  rw [List.flatMap_append, List.flatMap_append, hid a.data ha, hid b.data hb]
  rw [show (['~'].flatMap (fun c => if c = '~' then home.data else [c]) = home.data) from by simp]
  rw [show (a.data ++ home.data ++ b.data = (a ++ home ++ b).data) from by
    rw [String.data_append, String.data_append]]

/-- Witness for `c9_amended`: a leading marker. -/
theorem c9_witness :
    pyReplaceTilde "/home/u" ("" ++ "~" ++ "/notes.txt") = "" ++ "/home/u" ++ "/notes.txt" :=
  c9_amended "/home/u" "" "/notes.txt" (by decide) (by decide)

/-! ### C10: what `registerFile` writes -/

/-- Claim C10: `registerFile` writes a newline followed by the entry line
with no trailing newline.  Conjunct one: if the timestamp does not end in a
newline (it is always the empty default), the manifest never ends in a
newline after a register.  Conjunct two: on a fresh manifest the first
registration leaves a blank line between the header and the entry.  Conjunct
three: `readLocalFiles` skips that blank line and parses the entry.
Conjuncts four and five: the remote manifest parser and `deregisterFile` do
not skip it and raise `IndexError`. -/
theorem c10_register :
    (∀ (m rp lp ts : String), ts.data.getLast? ≠ some '\n' →
        (registerFile rp lp ts m).data.getLast? ≠ some '\n') ∧
    pySplitNl (registerFile "notes.txt" "~/notes.txt" "" freshManifest)
      = ["[FILES]", "", "notes.txt -> ~/notes.txt - "] ∧
    readLocalFiles "/home/u" (registerFile "notes.txt" "~/notes.txt" "" freshManifest)
        [("/home/u/notes.txt", "hello")]
      = .ok [("notes.txt", ⟨"/home/u/notes.txt", "hello"⟩)] ∧
    parseMaster (registerFile "notes.txt" "~/notes.txt" "" freshManifest)
      = .error .indexError ∧
    deregisterFile "a" (registerFile "a" "/a" "" freshManifest) = .error .indexError := by
  refine ⟨?_, by decide, by decide, by decide, by decide⟩
  intro m rp lp ts hts
  simp only [registerFile, String.data_append, List.getLast?_append]
  cases hlast : ts.data.getLast? with
  | some c =>
    rw [hlast] at hts
    simp only [Option.or_some]
    exact hts
  | none =>
    simp only [Option.none_or]
    rw [show ([' ', '-', ' '].getLast? = some ' ') from rfl]
    simp only [Option.or_some]
    decide

/-- Witness for `c10_register`: the actual call shape, with the default
empty timestamp. -/
theorem c10_witness :
    (registerFile "notes.txt" "~/notes.txt" "" freshManifest).data.getLast? ≠ some '\n' :=
  c10_register.1 freshManifest "notes.txt" "~/notes.txt" "" (by decide)

/-! ### C2 and C7, counterexamples on the concrete scenario -/

/-- Claim C2, counterexample: the spec's concrete scenario.  The local
manifest registers `notes.txt -> ~/notes.txt` and the local file holds
"hello"; `readLocalFiles` yields that entry and `writeRemoteFiles` succeeds,
but `writeRemoteFiles` never uploads the manifest `.master` itself, so
`readRemoteFiles` — which starts by fetching `.master` from the remote —
gets a Not-Found body without a `content` key and raises `KeyError` instead
of returning "hello" for `notes.txt`. -/
theorem c2_counterexample :
    readLocalFiles "/home/u" (registerFile "notes.txt" "~/notes.txt" "" freshManifest)
        [("/home/u/notes.txt", "hello")]
      = .ok [("notes.txt", ⟨"/home/u/notes.txt", "hello"⟩)] ∧
    (writeRemoteFiles [("notes.txt", ⟨"/home/u/notes.txt", "hello"⟩)] emptyRepo).1
      = .ok () ∧
    (readRemoteFiles "/home/u"
        (writeRemoteFiles [("notes.txt", ⟨"/home/u/notes.txt", "hello"⟩)] emptyRepo).2).1
      = .error (.keyError "content") := by
  refine ⟨by decide, by decide, by decide⟩

/-- Claim C7, counterexample: on a repository with no commits (the bootstrap
path), `writeRemoteFiles` issues a reference-update request in the middle of
the sequence — `_createBranch` both creates a file through the contents API
and patches the reference — before the final reference update, so the trace
contains a reference update that is not the last request. -/
theorem c7_counterexample :
    (writeRemoteFiles [("notes.txt", ⟨"/home/u/notes.txt", "hello"⟩)] emptyRepo).2.trace
      = [.blobCreate, .refRead, .contentsPut, .commitCreate, .refUpdate,
         .refRead, .commitRead, .treeRead, .treeCreate, .commitCreate, .refUpdate] ∧
    ApiEvent.refUpdate ∈
      (writeRemoteFiles [("notes.txt", ⟨"/home/u/notes.txt", "hello"⟩)]
          emptyRepo).2.trace.dropLast ∧
    (writeRemoteFiles [("notes.txt", ⟨"/home/u/notes.txt", "hello"⟩)] emptyRepo).1
      = .ok () := by
  refine ⟨by decide, by decide, by decide⟩

/-! ### Running client computations: pointwise evaluation lemmas -/

/-- Pointwise evaluation of `bind` for `M`. -/
theorem mbind_run {α β : Type} (m : M α) (k : α → M β) (r : Remote) :
    (m >>= k) r
      = match m r with
        | (.ok a, r') => k a r'
        | (.error e, r') => (.error e, r') := rfl

/-- Pointwise evaluation of `pure` for `M`. -/
theorem mpure_run {α : Type} (a : α) (r : Remote) : (pure a : M α) r = (.ok a, r) := rfl

/-- Evaluation of a bind whose first step succeeds. -/
theorem step_bind_run {α β : Type} (m : M α) (k : α → M β) (r : Remote) (a : α) (r1 : Remote)
    (hm : m r = (.ok a, r1)) : (m >>= k) r = k a r1 := by
  rw [mbind_run, hm]

/-- Evaluation of a bind whose first step fails. -/
theorem step_bind_err {α β : Type} (m : M α) (k : α → M β) (r : Remote) (e : PyErr) (r1 : Remote)
    (hm : m r = (.error e, r1)) : (m >>= k) r = (.error e, r1) := by
  rw [mbind_run, hm]

/-- A request with no failure injected succeeds and is traced. -/
theorem tick_run (e : ApiEvent) (r : Remote) (hb : r.budget = none) :
    tick e r = (.ok (), { r with trace := r.trace ++ [e] }) := by
  unfold tick
  rw [hb]

/-- `readR` just reads. -/
theorem readR_run {α : Type} (f : Remote → α) (r : Remote) : readR f r = (.ok (f r), r) := rfl

/-- Run of `_createNewBlob` with no failure injected. -/
theorem createNewBlob_run (c : String) (r : Remote) (hb : r.budget = none) :
    createNewBlob c r
      = (.ok r.fresh,
          { r with blobs := r.blobs ++ [(r.fresh, b64encodeStr c)], fresh := r.fresh + 1,
                   trace := r.trace ++ [.blobCreate] }) := by
  unfold createNewBlob
  rw [step_bind_run _ _ _ _ _ (tick_run _ _ hb)]

/-- Run of `_getPreviousCommit` with no failure injected. -/
theorem getPreviousCommit_run (r : Remote) (hb : r.budget = none) :
    getPreviousCommit r = (.ok r.head, { r with trace := r.trace ++ [.refRead] }) := by
  unfold getPreviousCommit
  rw [step_bind_run _ _ _ _ _ (tick_run _ _ hb)]
  rfl

/-- Run of `_updateBranchReference` with no failure injected. -/
theorem updateBranchReference_run (sha : Nat) (f : Bool) (r : Remote) (hb : r.budget = none) :
    updateBranchReference sha f r
      = (.ok (), { r with head := some sha, trace := r.trace ++ [.refUpdate] }) := by
  unfold updateBranchReference
  rw [step_bind_run _ _ _ _ _ (tick_run _ _ hb)]

/-- Run of `_createFile` (the contents PUT) with no failure injected. -/
theorem createFile_run (c p msg br : String) (r : Remote) (hb : r.budget = none) :
    createFile c p msg br r
      = (.ok r.fresh,
          { r with
              blobs := r.blobs ++ [(r.fresh, b64encodeStr c)]
              trees := r.trees ++
                [(r.fresh + 1, upsertEntry (headTree r) ⟨p, fileMode, "blob", r.fresh⟩)]
              commits := r.commits ++
                [(r.fresh + 2,
                  ⟨r.fresh + 1, (match r.head with | none => [] | some hc => [hc]), msg⟩)]
              head := some (r.fresh + 2)
              fresh := r.fresh + 3
              trace := r.trace ++ [.contentsPut] }) := by
  unfold createFile
  rw [step_bind_run _ _ _ _ _ (tick_run _ _ hb)]
  rfl

/-- Run of `_commitTree` with no failure injected, no parent, valid tree. -/
theorem commitTree_run_root (t : Nat) (msg : String) (r : Remote) (hb : r.budget = none)
    (ht : (alook t r.trees).isSome = true) :
    commitTree t none msg r
      = (.ok r.fresh,
          { r with commits := r.commits ++ [(r.fresh, ⟨t, [], msg⟩)], fresh := r.fresh + 1,
                   trace := r.trace ++ [.commitCreate] }) := by
  unfold commitTree
  rw [step_bind_run _ _ _ _ _ (tick_run _ _ hb)]
  dsimp only
  rw [if_pos (by simp [ht])]

/-- Run of `_commitTree` with no failure injected, one valid parent, valid
tree. -/
theorem commitTree_run_parent (t : Nat) (p : Nat) (msg : String) (r : Remote)
    (hb : r.budget = none) (ht : (alook t r.trees).isSome = true)
    (hp : (alook p r.commits).isSome = true) :
    commitTree t (some p) msg r
      = (.ok r.fresh,
          { r with commits := r.commits ++ [(r.fresh, ⟨t, [p], msg⟩)], fresh := r.fresh + 1,
                   trace := r.trace ++ [.commitCreate] }) := by
  unfold commitTree
  rw [step_bind_run _ _ _ _ _ (tick_run _ _ hb)]
  dsimp only
  rw [if_pos (by simp [ht, hp])]

/-- Run of `_getBranchTree` with no failure injected, on a commit that
exists and whose tree exists. -/
theorem getBranchTree_run (p : Nat) (co : CommitObj) (tl : List TreeEntry) (r : Remote)
    (hb : r.budget = none) (hc : alook p r.commits = some co)
    (ht : alook co.tree r.trees = some tl) :
    getBranchTree (some p) r
      = (.ok co.tree, { r with trace := r.trace ++ [.commitRead, .treeRead] }) := by
  unfold getBranchTree
  rw [step_bind_run _ _ _ _ _ (tick_run _ _ hb)]
  dsimp only
  rw [step_bind_run _ _ _ _ _ (readR_run _ _)]
  dsimp only
  rw [hc]
  dsimp only
  have h2 : ({ r with trace := r.trace ++ [ApiEvent.commitRead] } : Remote).budget = none := hb
  rw [step_bind_run _ _ _ _ _ (tick_run _ _ h2)]
  rw [step_bind_run _ _ _ _ _ (readR_run _ _)]
  dsimp only
  rw [ht]
  dsimp only
  rw [mpure_run, List.append_assoc]
  rfl

/-- Run of `_updateTree` with no failure injected, on an existing base. -/
theorem updateTree_run (t : Nat) (bs : List TreeEntry) (base : List TreeEntry) (r : Remote)
    (hb : r.budget = none) (ht : alook t r.trees = some base) :
    updateTree t bs r
      = (.ok r.fresh,
          { r with trees := r.trees ++ [(r.fresh, bs.foldl upsertEntry base)],
                   fresh := r.fresh + 1, trace := r.trace ++ [.treeCreate] }) := by
  unfold updateTree
  rw [step_bind_run _ _ _ _ _ (tick_run _ _ hb)]
  rw [step_bind_run _ _ _ _ _ (readR_run _ _)]
  dsimp only
  rw [ht]
  rfl

/-- Run of `getFile` with no failure injected: the processed contents
response, with the request traced. -/
theorem getFile_run (p : String) (r : Remote) (hb : r.budget = none) :
    getFile p r
      = (getFileResp p (contentsResponse r p), { r with trace := r.trace ++ [.contentsGet] }) := by
  unfold getFile
  rw [step_bind_run _ _ _ _ _ (tick_run _ _ hb)]
  rw [step_bind_run _ _ _ _ _ (readR_run _ _)]
  rw [show contentsResponse { r with trace := r.trace ++ [ApiEvent.contentsGet] } p
    = contentsResponse r p from rfl]
  cases getFileResp p (contentsResponse r p) <;> rfl

/-! ### Store lookups and the blob loop -/

/-- Lookup skips a non-matching key. -/
theorem alook_cons_ne {α : Type} (k k' : Nat) (v : α) (l : List (Nat × α)) (h : k' ≠ k) :
    alook k ((k', v) :: l) = alook k l := by
  simp [alook, h]

/-- Lookup finds a matching head key. -/
theorem alook_cons_eq {α : Type} (k : Nat) (v : α) (l : List (Nat × α)) :
    alook k ((k, v) :: l) = some v := by
  simp [alook]

/-- The blob-creation loop of `writeRemoteFiles`, run with no failure
injected: one blob per registered file, shas allocated in order. -/
theorem blobFold : ∀ (F : List (String × FileEntry)) (acc : List TreeEntry) (r : Remote),
    r.budget = none →
    (List.foldlM (fun (acc : List TreeEntry) (nf : String × FileEntry) => do
        let newFileSha ← createNewBlob nf.2.contents
        pure (acc ++ [createNewTreeBlob nf.1 fileMode newFileSha])) acc F) r
      = (.ok (acc ++ blobEntries F r.fresh),
         { r with blobs := r.blobs ++ blobPayloads F r.fresh,
                  fresh := r.fresh + F.length,
                  trace := r.trace ++ List.replicate F.length ApiEvent.blobCreate })
  | [], acc, r, hb => by
    rw [List.foldlM_nil, mpure_run]
    simp [blobEntries, blobPayloads]
  | nf :: F, acc, r, hb => by
    rw [List.foldlM_cons]
    have hstep : (createNewBlob nf.2.contents >>= fun newFileSha =>
        (pure (acc ++ [createNewTreeBlob nf.1 fileMode newFileSha]) : M (List TreeEntry))) r
        = (.ok (acc ++ [createNewTreeBlob nf.1 fileMode r.fresh]),
           { r with blobs := r.blobs ++ [(r.fresh, b64encodeStr nf.2.contents)],
                    fresh := r.fresh + 1, trace := r.trace ++ [.blobCreate] }) := by
      rw [step_bind_run _ _ _ _ _ (createNewBlob_run _ _ hb), mpure_run]
    rw [step_bind_run _ _ _ _ _ hstep]
    have hb2 : ({ r with blobs := r.blobs ++ [(r.fresh, b64encodeStr nf.2.contents)], fresh := r.fresh + 1, trace := r.trace ++ [ApiEvent.blobCreate] } : Remote).budget = none := hb
    rw [blobFold F (acc ++ [createNewTreeBlob nf.1 fileMode r.fresh]) _ hb2]
    simp only [blobEntries, blobPayloads, List.replicate_succ, List.length_cons,
      List.cons_append, List.append_assoc, List.singleton_append, Prod.mk.injEq,
      Remote.mk.injEq, List.nil_append, true_and, and_true, eq_self_iff_true,
      createNewTreeBlob]
    omega


/-- Lookup is stable under appending new entries when the key is present. -/
theorem alook_append_left {α : Type} (k : Nat) (l l' : List (Nat × α)) (v : α)
    (h : alook k l = some v) : alook k (l ++ l') = some v := by
  induction l with
  | nil => exact Option.noConfusion h
  | cons p rest ih =>
    obtain ⟨k', v'⟩ := p
    by_cases hk : k' = k
    · subst hk
      rw [alook_cons_eq] at h
      rw [List.cons_append, alook_cons_eq]
      exact h
    · rw [alook_cons_ne _ _ _ _ hk] at h
      rw [List.cons_append, alook_cons_ne _ _ _ _ hk]
      exact ih h

/-- Lookup falls through to appended entries when the key is absent. -/
theorem alook_append_none {α : Type} (k : Nat) (l l' : List (Nat × α))
    (h : alook k l = none) : alook k (l ++ l') = alook k l' := by
  induction l with
  | nil => rfl
  | cons p rest ih =>
    obtain ⟨k', v'⟩ := p
    by_cases hk : k' = k
    · subst hk
      rw [alook_cons_eq] at h
      exact Option.noConfusion h
    · rw [alook_cons_ne _ _ _ _ hk] at h
      rw [List.cons_append, alook_cons_ne _ _ _ _ hk]
      exact ih h

/-- Run of `_createBranch` with no failure injected: the placeholder file
commit through the contents API, the empty-tree root commit, and a
reference update, in that order. -/
theorem createBranch_run (br : String) (r : Remote) (hb : r.budget = none)
    (tl0 : List TreeEntry) (h0 : alook emptyTreeSha r.trees = some tl0) :
    createBranch br r
      = (.ok (),
          { r with
              blobs := r.blobs ++ [(r.fresh, b64encodeStr "")]
              trees := r.trees ++
                [(r.fresh + 1, upsertEntry (headTree r) ⟨".master", fileMode, "blob", r.fresh⟩)]
              commits := r.commits ++
                [(r.fresh + 2,
                  ⟨r.fresh + 1, (match r.head with | none => [] | some hc => [hc]), ""⟩),
                 (r.fresh + 3, ⟨emptyTreeSha, [], "Initial Commit"⟩)]
              head := some (r.fresh + 3)
              fresh := r.fresh + 4
              trace := r.trace ++ [.contentsPut, .commitCreate, .refUpdate] }) := by
  unfold createBranch
  rw [step_bind_run _ _ _ _ _ (createFile_run "" ".master" "" br r hb)]
  have hb2 : ({ r with blobs := r.blobs ++ [(r.fresh, b64encodeStr "")], trees := r.trees ++ [(r.fresh + 1, upsertEntry (headTree r) ⟨".master", fileMode, "blob", r.fresh⟩)], commits := r.commits ++ [(r.fresh + 2, ⟨r.fresh + 1, (match r.head with | none => [] | some hc => [hc]), ""⟩)], head := some (r.fresh + 2), fresh := r.fresh + 3, trace := r.trace ++ [ApiEvent.contentsPut] } : Remote).budget = none := hb
  have ht2 : (alook emptyTreeSha ({ r with blobs := r.blobs ++ [(r.fresh, b64encodeStr "")], trees := r.trees ++ [(r.fresh + 1, upsertEntry (headTree r) ⟨".master", fileMode, "blob", r.fresh⟩)], commits := r.commits ++ [(r.fresh + 2, ⟨r.fresh + 1, (match r.head with | none => [] | some hc => [hc]), ""⟩)], head := some (r.fresh + 2), fresh := r.fresh + 3, trace := r.trace ++ [ApiEvent.contentsPut] } : Remote).trees).isSome = true := by
    dsimp only
    rw [alook_append_left _ _ _ _ h0]
    rfl
  rw [step_bind_run _ _ _ _ _ (commitTree_run_root emptyTreeSha "Initial Commit" _ hb2 ht2)]
  have hb3 : ({ r with blobs := r.blobs ++ [(r.fresh, b64encodeStr "")], trees := r.trees ++ [(r.fresh + 1, upsertEntry (headTree r) ⟨".master", fileMode, "blob", r.fresh⟩)], commits := (r.commits ++ [(r.fresh + 2, ⟨r.fresh + 1, (match r.head with | none => [] | some hc => [hc]), ""⟩)]) ++ [(r.fresh + 3, ⟨emptyTreeSha, [], "Initial Commit"⟩)], head := some (r.fresh + 2), fresh := r.fresh + 3 + 1, trace := (r.trace ++ [ApiEvent.contentsPut]) ++ [ApiEvent.commitCreate] } : Remote).budget = none := hb
  rw [updateBranchReference_run _ _ _ hb3]
  simp only [Prod.mk.injEq, Remote.mk.injEq, List.append_assoc, List.singleton_append,
    List.cons_append, List.nil_append, true_and, and_true, eq_self_iff_true,
    Option.some.injEq, List.cons.injEq]

/-- Full run of `writeRemoteFiles` on a repository with no commits: the
bootstrap path.  Writing `n` for the number of registered files, blob shas
are `1..n`; the contents API allocates blob `n+1`, tree `n+2` and commit
`n+3` (orphaned); the bootstrap root commit of the empty tree is `n+4`; the
new tree is `n+5` and the final commit `n+6`. -/
theorem writeRemote_empty (F : List (String × FileEntry)) :
    writeRemoteFiles F emptyRepo
      = (.ok (),
          { blobs := blobPayloads F 1 ++ [(F.length + 1, b64encodeStr "")],
            trees := [(0, []), (F.length + 2, [⟨".master", fileMode, "blob", F.length + 1⟩]),
                      (F.length + 5, (blobEntries F 1).foldl upsertEntry [])],
            commits := [(F.length + 3, ⟨F.length + 2, [], ""⟩),
                        (F.length + 4, ⟨0, [], "Initial Commit"⟩),
                        (F.length + 6, ⟨F.length + 5, [F.length + 4], ""⟩)],
            head := some (F.length + 6),
            fresh := F.length + 7,
            trace := List.replicate F.length ApiEvent.blobCreate ++
              [.refRead, .contentsPut, .commitCreate, .refUpdate, .refRead, .commitRead,
               .treeRead, .treeCreate, .commitCreate, .refUpdate],
            budget := none }) := by
  show writeRemoteFiles F ⟨[], [(0, [])], [], none, 1, [], none⟩ = _
  unfold writeRemoteFiles
  rw [step_bind_run _ _ _ _ _ (blobFold F [] ⟨[], [(0, [])], [], none, 1, [], none⟩ rfl)]
  dsimp only
  simp only [List.nil_append]
  rw [step_bind_run _ _ _ _ _ (getPreviousCommit_run _ (by rfl))]
  dsimp only
  rw [step_bind_run _ _ _ _ _ (createBranch_run "main" _ (by rfl) [] (by rfl))]
  dsimp only [headTree, upsertEntry]
  simp only [List.nil_append, List.singleton_append, List.cons_append]
  rw [step_bind_run _ _ _ _ _ (getPreviousCommit_run _ (by rfl))]
  dsimp only
  rw [step_bind_run _ _ _ _ _
    (getBranchTree_run (1 + F.length + 3) ⟨emptyTreeSha, [], "Initial Commit"⟩ [] _ (by rfl)
      (by rw [alook_cons_ne _ _ _ _ (by omega), alook_cons_eq]) (by rfl))]
  dsimp only
  rw [step_bind_run _ _ _ _ _ (updateTree_run emptyTreeSha (blobEntries F 1) [] _ (by rfl)
    (by rfl))]
  dsimp only
  simp only [List.cons_append, List.nil_append]
  rw [step_bind_run _ _ _ _ _
    (commitTree_run_parent (1 + F.length + 4) (1 + F.length + 3) "" _ (by rfl)
      (by rw [alook_cons_ne _ _ _ _ (by omega), alook_cons_ne _ _ _ _ (by omega),
              alook_cons_eq]; rfl)
      (by rw [alook_cons_ne _ _ _ _ (by omega), alook_cons_eq]; rfl))]
  rw [updateBranchReference_run _ _ _ (by rfl)]
  dsimp only
  simp only [Nat.add_comm 1 F.length]
  simp only [emptyTreeSha, Prod.mk.injEq, Remote.mk.injEq, List.cons.injEq, Option.some.injEq,
    CommitObj.mk.injEq, TreeEntry.mk.injEq, List.append_assoc, List.cons_append,
    List.singleton_append, List.nil_append, true_and, and_true, eq_self_iff_true]

/-- Claim C6: on a repository with no commits, `uploadAll` succeeds; the
resulting branch history is exactly two commits, of which exactly one — the
bootstrap commit of the empty tree — has no parent; the other commit in the
history was created with the then-current head (the bootstrap commit) as its
parent; and the `_commitTree` request payload carries a `parents` field
exactly when a previous commit sha is supplied. -/
theorem c6_bootstrap (F : List (String × FileEntry)) :
    (writeRemoteFiles F emptyRepo).1 = .ok () ∧
    history (writeRemoteFiles F emptyRepo).2 = [F.length + 6, F.length + 4] ∧
    (history (writeRemoteFiles F emptyRepo).2).filter
        (parentless (writeRemoteFiles F emptyRepo).2) = [F.length + 4] ∧
    alook (F.length + 4) (writeRemoteFiles F emptyRepo).2.commits
      = some ⟨emptyTreeSha, [], "Initial Commit"⟩ ∧
    alook (F.length + 6) (writeRemoteFiles F emptyRepo).2.commits
      = some ⟨F.length + 5, [F.length + 4], ""⟩ ∧
    (∀ (t : Nat) (p : Option Nat) (msg : String),
        ("parents" ∈ (commitRequest t p msg).map Prod.fst) ↔ p ≠ none) := by
  have hw := writeRemote_empty F
  have h1 : alook (F.length + 6)
      [(F.length + 3, (⟨F.length + 2, [], ""⟩ : CommitObj)),
       (F.length + 4, ⟨0, [], "Initial Commit"⟩),
       (F.length + 6, ⟨F.length + 5, [F.length + 4], ""⟩)]
      = some ⟨F.length + 5, [F.length + 4], ""⟩ := by
    rw [alook_cons_ne _ _ _ _ (by omega), alook_cons_ne _ _ _ _ (by omega), alook_cons_eq]
  have h2 : alook (F.length + 4)
      [(F.length + 3, (⟨F.length + 2, [], ""⟩ : CommitObj)),
       (F.length + 4, ⟨0, [], "Initial Commit"⟩),
       (F.length + 6, ⟨F.length + 5, [F.length + 4], ""⟩)]
      = some ⟨0, [], "Initial Commit"⟩ := by
    rw [alook_cons_ne _ _ _ _ (by omega), alook_cons_eq]
  refine ⟨by rw [hw], ?_, ?_, ?_, ?_, ?_⟩
  · rw [hw]
    dsimp only [history]
    simp only [List.length_cons, List.length_nil]
    rw [show (0 + 1 + 1 + 1 + 1 : Nat) = 3 + 1 from rfl]
    rw [historyGo, h1]
    dsimp only [List.head?]
    rw [historyGo, h2]
    rfl
  · rw [hw]
    dsimp only [history]
    simp only [List.length_cons, List.length_nil]
    rw [show (0 + 1 + 1 + 1 + 1 : Nat) = 3 + 1 from rfl]
    rw [historyGo, h1]
    dsimp only [List.head?]
    rw [historyGo, h2]
    simp only [List.filter, parentless, h1, h2]
    rfl
  · rw [hw]
    exact h2
  · rw [hw]
    exact h1
  · intro t p msg
    cases p <;> simp [commitRequest]

/-! ### Quiet computations and reference-update-last runs -/

/-- Inversion for pair equations. -/
theorem pair_eq_inv {α β : Type} {a x : α} {b y : β} (h : (a, b) = (x, y)) : a = x ∧ b = y := by
  cases h
  exact ⟨rfl, rfl⟩

/-- `pure` is quiet. -/
theorem quiet_pure {α : Type} (a : α) : Quiet (pure a : M α) := by
  intro r res r' h
  obtain ⟨-, h2⟩ := pair_eq_inv h
  subst h2
  exact ⟨rfl, [], by simp, by simp⟩

/-- `M.pure` is quiet. -/
theorem quiet_mpure {α : Type} (a : α) : Quiet (M.pure a) := quiet_pure a

/-- `throwE` is quiet. -/
theorem quiet_throwE {α : Type} (e : PyErr) : Quiet (throwE e : M α) := by
  intro r res r' h
  obtain ⟨-, h2⟩ := pair_eq_inv h
  subst h2
  exact ⟨rfl, [], by simp, by simp⟩

/-- `readR` is quiet. -/
theorem quiet_readR {α : Type} (f : Remote → α) : Quiet (readR f) := by
  intro r res r' h
  obtain ⟨-, h2⟩ := pair_eq_inv h
  subst h2
  exact ⟨rfl, [], by simp, by simp⟩

/-- `tick` of any request other than a reference update is quiet. -/
theorem quiet_tick (e : ApiEvent) (he : e ≠ ApiEvent.refUpdate) : Quiet (tick e) := by
  intro r res r' h
  unfold tick at h
  cases hb : r.budget with
  | none =>
    rw [hb] at h
    obtain ⟨-, h2⟩ := pair_eq_inv h
    subst h2
    exact ⟨rfl, [e], rfl, by simpa using fun hcon => he hcon.symm⟩
  | some k =>
    rw [hb] at h
    cases k with
    | zero =>
      obtain ⟨-, h2⟩ := pair_eq_inv h
      subst h2
      exact ⟨rfl, [], by simp, by simp⟩
    | succ k' =>
      obtain ⟨-, h2⟩ := pair_eq_inv h
      subst h2
      exact ⟨rfl, [e], rfl, by simpa using fun hcon => he hcon.symm⟩

/-- Binds of quiet computations are quiet. -/
theorem quiet_bind {α β : Type} (m : M α) (k : α → M β) (hm : Quiet m)
    (hk : ∀ a, Quiet (k a)) : Quiet (m >>= k) := by
  intro r res r' h
  rw [mbind_run] at h
  rcases hmr : m r with ⟨resm, r1⟩
  rw [hmr] at h
  obtain ⟨hh1, es1, ht1, hn1⟩ := hm r resm r1 hmr
  cases resm with
  | error e =>
    obtain ⟨-, h2⟩ := pair_eq_inv h
    subst h2
    exact ⟨hh1, es1, ht1, hn1⟩
  | ok a =>
    obtain ⟨hh2, es2, ht2, hn2⟩ := hk a r1 res r' h
    refine ⟨hh2.trans hh1, es1 ++ es2, ?_, ?_⟩
    · rw [ht2, ht1, List.append_assoc]
    · simp only [List.mem_append]
      rintro (hx | hx)
      · exact hn1 hx
      · exact hn2 hx

/-- Quiet steps fold into quiet loops. -/
theorem quiet_foldlM {α β : Type} (f : β → α → M β) (hf : ∀ b a, Quiet (f b a)) :
    ∀ (l : List α) (b : β), Quiet (List.foldlM f b l)
  | [], b => by
    rw [List.foldlM_nil]
    exact quiet_pure b
  | a :: l, b => by
    rw [List.foldlM_cons]
    exact quiet_bind _ _ (hf b a) (fun b' => quiet_foldlM f hf l b')

/-- `allocTree` is quiet. -/
theorem quiet_allocTree (entries : List TreeEntry) : Quiet (allocTree entries) := by
  intro r res r' h
  obtain ⟨-, h2⟩ := pair_eq_inv h
  subst h2
  exact ⟨rfl, [], by simp, by simp⟩

/-- `_createNewBlob` is quiet. -/
theorem quiet_createNewBlob (c : String) : Quiet (createNewBlob c) := by
  unfold createNewBlob
  refine quiet_bind _ _ (quiet_tick _ (by decide)) (fun _ => ?_)
  intro r res r' h
  obtain ⟨-, h2⟩ := pair_eq_inv h
  subst h2
  exact ⟨rfl, [], by simp, by simp⟩

/-- `_getPreviousCommit` is quiet. -/
theorem quiet_getPreviousCommit : Quiet getPreviousCommit := by
  unfold getPreviousCommit
  exact quiet_bind _ _ (quiet_tick _ (by decide)) (fun _ => quiet_readR _)

/-- `_getBranchTree` is quiet. -/
theorem quiet_getBranchTree (p : Option Nat) : Quiet (getBranchTree p) := by
  unfold getBranchTree
  refine quiet_bind _ _ (quiet_tick _ (by decide)) (fun _ => ?_)
  cases p with
  | none => exact quiet_throwE _
  | some prev =>
    refine quiet_bind _ _ (quiet_readR _) (fun c? => ?_)
    cases c? with
    | none => exact quiet_throwE _
    | some co =>
      refine quiet_bind _ _ (quiet_tick _ (by decide)) (fun _ => ?_)
      refine quiet_bind _ _ (quiet_readR _) (fun t? => ?_)
      cases t? with
      | none => exact quiet_throwE _
      | some t => exact quiet_pure _

/-- `_updateTree` is quiet. -/
theorem quiet_updateTree (t : Nat) (bs : List TreeEntry) : Quiet (updateTree t bs) := by
  unfold updateTree
  refine quiet_bind _ _ (quiet_tick _ (by decide)) (fun _ => ?_)
  refine quiet_bind _ _ (quiet_readR _) (fun base? => ?_)
  cases base? with
  | none => exact quiet_throwE _
  | some base => exact quiet_allocTree _

/-- `_commitTree` is quiet. -/
theorem quiet_commitTree (t : Nat) (p : Option Nat) (msg : String) :
    Quiet (commitTree t p msg) := by
  unfold commitTree
  refine quiet_bind _ _ (quiet_tick _ (by decide)) (fun _ => ?_)
  intro r res r' h
  dsimp only at h
  by_cases hv : ((alook t r.trees).isSome &&
      (match p with | none => [] | some q => [q]).all fun q => (alook q r.commits).isSome) = true
  · rw [if_pos hv] at h
    obtain ⟨-, h2⟩ := pair_eq_inv h
    subst h2
    exact ⟨rfl, [], by simp, by simp⟩
  · rw [if_neg hv] at h
    obtain ⟨-, h2⟩ := pair_eq_inv h
    subst h2
    exact ⟨rfl, [], by simp, by simp⟩

/-- `_updateBranchReference` issues exactly one reference update, at its
only request. -/
theorem refLast_updateBranchReference (sha : Nat) (f : Bool) :
    RefLast (updateBranchReference sha f) := by
  intro r res r' h
  unfold updateBranchReference at h
  rw [mbind_run] at h
  unfold tick at h
  cases hb : r.budget with
  | none =>
    rw [hb] at h
    obtain ⟨h1, h2⟩ := pair_eq_inv h
    subst h2
    constructor
    · intro _
      exact ⟨[], by simp, by simp⟩
    · intro e he
      rw [← h1] at he
      exact Except.noConfusion he
  | some k =>
    rw [hb] at h
    cases k with
    | zero =>
      obtain ⟨h1, h2⟩ := pair_eq_inv h
      subst h2
      constructor
      · intro hok
        rw [← h1] at hok
        exact Except.noConfusion hok
      · intro e he
        exact ⟨rfl, [], by simp, by simp⟩
    | succ k' =>
      obtain ⟨h1, h2⟩ := pair_eq_inv h
      subst h2
      constructor
      · intro _
        exact ⟨[], by simp, by simp⟩
      · intro e he
        rw [← h1] at he
        exact Except.noConfusion he

/-- A quiet step followed by a reference-update-last computation is
reference-update-last. -/
theorem refLast_bind {α : Type} (m : M α) (k : α → M Unit) (hm : Quiet m)
    (hk : ∀ a, RefLast (k a)) : RefLast (m >>= k) := by
  intro r res r' h
  rw [mbind_run] at h
  rcases hmr : m r with ⟨resm, r1⟩
  rw [hmr] at h
  obtain ⟨hh1, es1, ht1, hn1⟩ := hm r resm r1 hmr
  cases resm with
  | error e =>
    obtain ⟨h1, h2⟩ := pair_eq_inv h
    subst h2
    constructor
    · intro hok
      rw [← h1] at hok
      exact Except.noConfusion hok
    · intro e' he'
      exact ⟨hh1, es1, ht1, hn1⟩
  | ok a =>
    obtain ⟨hok2, herr2⟩ := hk a r1 res r' h
    constructor
    · intro hok
      obtain ⟨es2, ht2, hn2⟩ := hok2 hok
      refine ⟨es1 ++ es2, ?_, ?_⟩
      · rw [ht2, ht1]
        simp [List.append_assoc]
      · simp only [List.mem_append]
        rintro (hx | hx)
        · exact hn1 hx
        · exact hn2 hx
    · intro e he
      obtain ⟨hh2, es2, ht2, hn2⟩ := herr2 e he
      refine ⟨hh2.trans hh1, es1 ++ es2, ?_, ?_⟩
      · rw [ht2, ht1, List.append_assoc]
      · simp only [List.mem_append]
        rintro (hx | hx)
        · exact hn1 hx
        · exact hn2 hx

/-- Evaluation of a bind on a pure value. -/
theorem mpure_bind_run {α β : Type} (a : α) (k : α → M β) (r : Remote) :
    ((M.pure a : M α) >>= k) r = k a r := rfl

/-- The value `_getPreviousCommit` returns is the branch head. -/
theorem getPrev_val (r : Remote) (v : Option Nat) (r' : Remote)
    (h : getPreviousCommit r = (.ok v, r')) : v = r.head := by
  unfold getPreviousCommit at h
  rw [mbind_run] at h
  unfold tick at h
  cases hb : r.budget with
  | none =>
    rw [hb] at h
    obtain ⟨h1, -⟩ := pair_eq_inv h
    injection h1 with h1
    exact h1.symm
  | some k =>
    rw [hb] at h
    cases k with
    | zero =>
      obtain ⟨h1, -⟩ := pair_eq_inv h
      exact Except.noConfusion h1
    | succ k' =>
      obtain ⟨h1, -⟩ := pair_eq_inv h
      injection h1 with h1
      exact h1.symm

/-- Claim C7, amended: when the branch already has a head commit (the
non-bootstrap path), `writeRemoteFiles` issues its only reference-update
request as the very last request of the run, and if any earlier step fails —
whether an injected request failure or a missing object — no reference
update was issued and the branch reference still points at its prior head.
(The bootstrap path violates the original claim; see the counterexample.) -/
theorem c7_amended (F : List (String × FileEntry)) (r : Remote) (c : Nat)
    (res : Except PyErr Unit) (r' : Remote) (hc : r.head = some c)
    (hrun : writeRemoteFiles F r = (res, r')) :
    (res = .ok () →
      ∃ es, r'.trace = r.trace ++ es ++ [ApiEvent.refUpdate] ∧ ApiEvent.refUpdate ∉ es) ∧
    (∀ e, res = .error e →
      r'.head = some c ∧ ∃ es, r'.trace = r.trace ++ es ∧ ApiEvent.refUpdate ∉ es) := by
  have hq : Quiet (List.foldlM
      (fun (acc : List TreeEntry) (nf : String × FileEntry) => do
        let newFileSha ← createNewBlob nf.2.contents
        pure (acc ++ [createNewTreeBlob nf.1 fileMode newFileSha])) [] F) :=
    quiet_foldlM _
      (fun b a => quiet_bind _ _ (quiet_createNewBlob _) (fun s => quiet_pure _)) F []
  unfold writeRemoteFiles at hrun
  rw [mbind_run] at hrun
  rcases hF : (List.foldlM
      (fun (acc : List TreeEntry) (nf : String × FileEntry) => do
        let newFileSha ← createNewBlob nf.2.contents
        pure (acc ++ [createNewTreeBlob nf.1 fileMode newFileSha])) [] F) r with ⟨resF, r1⟩
  rw [hF] at hrun
  obtain ⟨hh1, es1, ht1, hn1⟩ := hq r resF r1 hF
  cases resF with
  | error e =>
    dsimp only at hrun
    obtain ⟨h1, h2⟩ := pair_eq_inv hrun
    subst h2
    constructor
    · intro hok
      rw [← h1] at hok
      exact Except.noConfusion hok
    · intro e' he'
      exact ⟨hh1.trans hc, es1, ht1, hn1⟩
  | ok blobs =>
    dsimp only at hrun
    rw [mbind_run] at hrun
    rcases hP : getPreviousCommit r1 with ⟨resP, r2⟩
    rw [hP] at hrun
    obtain ⟨hh2, es2, ht2, hn2⟩ := quiet_getPreviousCommit r1 resP r2 hP
    cases resP with
    | error e =>
      dsimp only at hrun
      obtain ⟨h1, h2⟩ := pair_eq_inv hrun
      subst h2
      constructor
      · intro hok
        rw [← h1] at hok
        exact Except.noConfusion hok
      · intro e' he'
        refine ⟨(hh2.trans hh1).trans hc, es1 ++ es2, ?_, ?_⟩
        · rw [ht2, ht1, List.append_assoc]
        · simp only [List.mem_append]
          rintro (hx | hx)
          · exact hn1 hx
          · exact hn2 hx
    | ok v =>
      have hv2 : v = some c := by rw [getPrev_val r1 v r2 hP, hh1, hc]
      subst hv2
      dsimp only at hrun
      rw [mpure_bind_run] at hrun
      have hRL : RefLast (getBranchTree (some c) >>= fun currentTreeSha =>
          updateTree currentTreeSha blobs >>= fun newTreeSha =>
            commitTree newTreeSha (some c) "" >>= fun newCommitSha =>
              updateBranchReference newCommitSha false) :=
        refLast_bind _ _ (quiet_getBranchTree _) (fun t =>
          refLast_bind _ _ (quiet_updateTree _ _) (fun ts =>
            refLast_bind _ _ (quiet_commitTree _ _ _) (fun cn =>
              refLast_updateBranchReference cn false)))
      obtain ⟨hok3, herr3⟩ := hRL r2 res r' hrun
      constructor
      · intro hok
        obtain ⟨es3, ht3, hn3⟩ := hok3 hok
        refine ⟨es1 ++ es2 ++ es3, ?_, ?_⟩
        · rw [ht3, ht2, ht1]
          simp [List.append_assoc]
        · simp only [List.mem_append]
          rintro ((hx | hx) | hx)
          · exact hn1 hx
          · exact hn2 hx
          · exact hn3 hx
      · intro e he
        obtain ⟨hh3, es3, ht3, hn3⟩ := herr3 e he
        refine ⟨((hh3.trans hh2).trans hh1).trans hc, es1 ++ es2 ++ es3, ?_, ?_⟩
        · rw [ht3, ht2, ht1]
          simp [List.append_assoc]
        · simp only [List.mem_append]
          rintro ((hx | hx) | hx)
          · exact hn1 hx
          · exact hn2 hx
          · exact hn3 hx

/-- Witness for `c7_amended` on a one-commit remote. -/
theorem c7_witness :
    ((writeRemoteFiles [] ⟨[], [(0, [])], [(5, ⟨0, [], ""⟩)], some 5, 6, [], none⟩).1 = .ok () →
      ∃ es, (writeRemoteFiles [] ⟨[], [(0, [])], [(5, ⟨0, [], ""⟩)], some 5, 6, [], none⟩).2.trace
          = ([] : List ApiEvent) ++ es ++ [ApiEvent.refUpdate] ∧ ApiEvent.refUpdate ∉ es) ∧
    (∀ e, (writeRemoteFiles [] ⟨[], [(0, [])], [(5, ⟨0, [], ""⟩)], some 5, 6, [], none⟩).1
        = .error e →
      (writeRemoteFiles [] ⟨[], [(0, [])], [(5, ⟨0, [], ""⟩)], some 5, 6, [], none⟩).2.head
          = some 5 ∧
        ∃ es, (writeRemoteFiles [] ⟨[], [(0, [])], [(5, ⟨0, [], ""⟩)], some 5, 6, [], none⟩).2.trace
            = ([] : List ApiEvent) ++ es ∧ ApiEvent.refUpdate ∉ es) :=
  c7_amended [] ⟨[], [(0, [])], [(5, ⟨0, [], ""⟩)], some 5, 6, [], none⟩ 5
    (writeRemoteFiles [] ⟨[], [(0, [])], [(5, ⟨0, [], ""⟩)], some 5, 6, [], none⟩).1
    (writeRemoteFiles [] ⟨[], [(0, [])], [(5, ⟨0, [], ""⟩)], some 5, 6, [], none⟩).2
    rfl rfl

/-! ### The non-bootstrap upload run -/

/-- Lookup misses when every stored key is below the key looked up. -/
theorem alook_none_of_lt {α : Type} (k : Nat) (l : List (Nat × α))
    (h : ∀ p ∈ l, p.1 < k) : alook k l = none := by
  induction l with
  | nil => rfl
  | cons p rest ih =>
    obtain ⟨k', v'⟩ := p
    have hk : k' ≠ k := by
      have := h (k', v') (by simp)
      omega
    rw [alook_cons_ne _ _ _ _ hk]
    exact ih (fun q hq => h q (by simp [hq]))

/-- Full run of `writeRemoteFiles` when the branch already has a head
commit: blobs for each file, one tree on top of the head commit's tree, one
commit with the previous head as parent, and one reference update, last. -/
theorem writeRemote_head (F : List (String × FileEntry)) (r : Remote) (c : Nat)
    (co : CommitObj) (base : List TreeEntry) (hb : r.budget = none) (hk : shaKeysOk r)
    (hc : r.head = some c) (hco : alook c r.commits = some co)
    (hbase : alook co.tree r.trees = some base) :
    writeRemoteFiles F r
      = (.ok (),
          { r with
              blobs := r.blobs ++ blobPayloads F r.fresh
              trees := r.trees ++
                [(r.fresh + F.length, (blobEntries F r.fresh).foldl upsertEntry base)]
              commits := r.commits ++ [(r.fresh + F.length + 1, ⟨r.fresh + F.length, [c], ""⟩)]
              head := some (r.fresh + F.length + 1)
              fresh := r.fresh + F.length + 2
              trace := r.trace ++ List.replicate F.length ApiEvent.blobCreate ++
                [.refRead, .commitRead, .treeRead, .treeCreate, .commitCreate, .refUpdate] }) := by
  unfold writeRemoteFiles
  rw [step_bind_run _ _ _ _ _ (blobFold F [] r hb)]
  dsimp only
  simp only [List.nil_append]
  rw [step_bind_run _ _ _ _ _ (getPreviousCommit_run _ (by exact hb))]
  dsimp only
  rw [hc]
  dsimp only
  rw [mpure_bind_run]
  rw [step_bind_run _ _ _ _ _ (getBranchTree_run c co base _ (by exact hb) (by exact hco)
    (by exact hbase))]
  dsimp only
  rw [step_bind_run _ _ _ _ _ (updateTree_run co.tree (blobEntries F r.fresh) base _
    (by exact hb) (by exact hbase))]
  dsimp only
  rw [step_bind_run _ _ _ _ _ (commitTree_run_parent (r.fresh + F.length) c "" _ (by exact hb)
    (by
      dsimp only
      rw [alook_append_none _ _ _ (alook_none_of_lt _ _ (fun p hp => by
        have := hk.2.1 p hp
        omega)), alook_cons_eq]
      rfl)
    (by
      dsimp only
      rw [hco]
      rfl))]
  rw [updateBranchReference_run _ _ _ (by exact hb)]
  dsimp only
  simp only [Prod.mk.injEq, Remote.mk.injEq, List.append_assoc, List.cons_append,
    List.singleton_append, List.nil_append, true_and, and_true, eq_self_iff_true,
    Option.some.injEq, List.cons.injEq, Prod.mk.injEq, CommitObj.mk.injEq]

/-! ### Remote manifest parsing and the fetch loop -/

/-- Python dictionary insertion of a fresh key appends. -/
theorem dictInsert_notmem {α : Type} (k : String) (v : α) (acc : List (String × α))
    (h : ∀ q ∈ acc, q.1 ≠ k) : dictInsert k v acc = acc ++ [(k, v)] := by
  induction acc with
  | nil => rfl
  | cons q rest ih =>
    obtain ⟨k', v'⟩ := q
    rw [dictInsert, if_neg (h (k', v') (by simp))]
    rw [ih (fun q hq => h q (by simp [hq]))]
    rfl

/-- A successful `parseMaster` fold determines `parsedLines`. -/
theorem parseFold_lines : ∀ (lines : List String) (acc out : List (String × String)),
    (lines.foldlM (fun acc line => do
        let p ← parseLine line
        pure (acc ++ [p])) acc
      : Except PyErr (List (String × String))) = .ok out →
    ∃ qs, parsedLines lines = some qs ∧ out = acc ++ qs
  | [], acc, out, h => by
    rw [List.foldlM_nil] at h
    injection h with h
    exact ⟨[], rfl, by simp [h]⟩
  | line :: lines, acc, out, h => by
    rw [List.foldlM_cons] at h
    cases hp : parseLine line with
    | error e =>
      rw [hp] at h
      exact Except.noConfusion h
    | ok p =>
      rw [hp] at h
      obtain ⟨qs, hq1, hq2⟩ := parseFold_lines lines (acc ++ [p]) out h
      refine ⟨p :: qs, ?_, ?_⟩
      · rw [parsedLines, hp, hq1]
        rfl
      · rw [hq2]
        simp
  decreasing_by simp_wf

/-- A successful `parseMaster` determines `parsedLines` of the manifest's
data lines. -/
theorem parseMaster_lines (mf : String) (ps : List (String × String))
    (h : parseMaster mf = .ok ps) :
    parsedLines ((pySplitNl (pyStrip mf)).drop 1) = some ps := by
  obtain ⟨qs, hq1, hq2⟩ := parseFold_lines _ [] ps h
  rw [hq1, hq2]
  rfl

/-- The fetch loop of `readRemoteFiles`, run with no failure injected, when
every listed line parses and every listed name fetches successfully:
it returns the accumulated dictionary extended by one entry per line. -/
theorem fetchLines_ok : ∀ (lines : List String) (ps : List (String × String))
    (out acc : List (String × FileEntry)) (r : Remote) (home : String),
    r.budget = none →
    parsedLines lines = some ps →
    List.Forall₂ (fun (p : String × String) (o : String × FileEntry) =>
      o.1 = p.1 ∧ o.2.localPath = pyReplaceTilde home p.2 ∧
        getFileResp p.1 (contentsResponse r p.1) = .ok o.2.contents) ps out →
    (out.map Prod.fst).Nodup →
    (∀ o ∈ out, ∀ q ∈ acc, q.1 ≠ o.1) →
    fetchLines home lines acc r
      = (.ok (acc ++ out),
         { r with trace := r.trace ++ List.replicate lines.length ApiEvent.contentsGet })
  | [], ps, out, acc, r, home, hb, hps, hfa, hnd, hdisj => by
    rw [parsedLines] at hps
    injection hps with hps
    subst hps
    rw [List.forall₂_nil_left_iff] at hfa
    subst hfa
    unfold fetchLines
    rw [List.foldlM_nil, mpure_run]
    simp
  | line :: lines, ps, out, acc, r, home, hb, hps, hfa, hnd, hdisj => by
    rw [parsedLines] at hps
    cases hp : parseLine line with
    | error e =>
      rw [hp] at hps
      exact Option.noConfusion hps
    | ok p =>
      rw [hp] at hps
      cases hqs : parsedLines lines with
      | none =>
        rw [hqs] at hps
        exact Option.noConfusion hps
      | some qs =>
        rw [hqs] at hps
        simp only [Option.map_some] at hps
        injection hps with hps
        subst hps
        rw [List.forall₂_cons_left_iff] at hfa
        obtain ⟨o, out', ⟨ho1, ho2, ho3⟩, hfa', hout⟩ := hfa
        subst hout
        obtain ⟨p1, p2⟩ := p
        obtain ⟨o1, oe⟩ := o
        obtain ⟨olp, oc⟩ := oe
        simp only at ho1 ho2 ho3
        subst ho1
        subst ho2
        unfold fetchLines
        rw [List.foldlM_cons, mbind_run]
        rw [hp]
        dsimp only
        have hgf : getFile o1 r = (.ok oc, { r with trace := r.trace ++ [ApiEvent.contentsGet] }) := by
          rw [getFile_run o1 r hb, ho3]
        rw [step_bind_run _ _ _ _ _ hgf, mpure_run]
        rw [dictInsert_notmem _ _ _ (fun q hq => hdisj (o1, ⟨pyReplaceTilde home p2, oc⟩)
          (by simp) q hq)]
        simp only [List.map_cons, List.nodup_cons] at hnd
        have hrec := fetchLines_ok lines qs out' (acc ++ [(o1, ⟨pyReplaceTilde home p2, oc⟩)])
          { r with trace := r.trace ++ [ApiEvent.contentsGet] } home hb hqs hfa' hnd.2
          (by
            intro o' ho' q hq
            rcases List.mem_append.mp hq with hq | hq
            · exact hdisj o' (by simp [ho']) q hq
            · have hq2 : q = (o1, ⟨pyReplaceTilde home p2, oc⟩) := by simpa using hq
              subst hq2
              intro hcon
              refine hnd.1 ?_
              rw [show o1 = o'.1 from hcon]
              exact List.mem_map_of_mem Prod.fst ho')
        dsimp only
        unfold fetchLines at hrec
        rw [hrec]
        simp [List.append_assoc, List.replicate_succ]

/-- An upserted entry is found under its own path. -/
theorem lookupPath_upsert_self : ∀ (L : List TreeEntry) (e : TreeEntry),
    lookupPath (upsertEntry L e) e.path = some e
  | [], e => by simp [upsertEntry, lookupPath]
  | a :: L, e => by
    rw [upsertEntry]
    by_cases h : a.path = e.path
    · rw [if_pos h]
      simp [lookupPath]
    · rw [if_neg h]
      have ih := lookupPath_upsert_self L e
      simp only [lookupPath, List.find?] at ih ⊢
      rw [show (decide (a.path = e.path)) = false from by simp [h]]
      exact ih

/-- Upserting one entry leaves other paths' lookups unchanged. -/
theorem lookupPath_upsert_other : ∀ (L : List TreeEntry) (e : TreeEntry) (p : String),
    p ≠ e.path → lookupPath (upsertEntry L e) p = lookupPath L p
  | [], e, p, h => by
    simp [upsertEntry, lookupPath, Ne.symm h]
  | a :: L, e, p, h => by
    rw [upsertEntry]
    by_cases ha : a.path = e.path
    · rw [if_pos ha]
      have he : e.path ≠ p := Ne.symm h
      have ha2 : a.path ≠ p := by rw [ha]; exact he
      simp [lookupPath, he, ha2]
    · rw [if_neg ha]
      simp only [lookupPath, List.find?]
      cases hd : decide (a.path = p) with
      | true => rfl
      | false => exact lookupPath_upsert_other L e p h
  decreasing_by simp_wf

/-- Folding in entries whose paths all differ from `p` leaves the lookup of
`p` unchanged. -/
theorem lookupPath_foldl_notmem : ∀ (es : List TreeEntry) (L : List TreeEntry) (p : String),
    (∀ e ∈ es, e.path ≠ p) → lookupPath (es.foldl upsertEntry L) p = lookupPath L p
  | [], L, p, _ => rfl
  | e :: es, L, p, h => by
    rw [List.foldl_cons]
    rw [lookupPath_foldl_notmem es (upsertEntry L e) p (fun e' he' => h e' (by simp [he']))]
    exact lookupPath_upsert_other L e p (fun hcon => h e (by simp) hcon.symm)

/-- Paths of the blob loop's tree entries are the registered names. -/
theorem blobEntries_path_mem : ∀ (F : List (String × FileEntry)) (k : Nat) (e : TreeEntry),
    e ∈ blobEntries F k → e.path ∈ F.map Prod.fst
  | [], _, _, h => by simp [blobEntries] at h
  | nf :: F, k, e, h => by
    rw [blobEntries] at h
    rcases List.mem_cons.mp h with h | h
    · simp [h, createNewTreeBlob]
    · simp only [List.map_cons, List.mem_cons]
      exact Or.inr (blobEntries_path_mem F (k + 1) e h)

/-- Position of a registered name in the tree built on top of the base:
the entry carries the blob sha allocated for that position. -/
theorem lookupPath_blobEntries : ∀ (F : List (String × FileEntry)) (k : Nat)
    (base : List TreeEntry) (i : Nat) (hi : i < F.length),
    (F.map Prod.fst).Nodup →
    lookupPath ((blobEntries F k).foldl upsertEntry base) (F.get ⟨i, hi⟩).1
      = some ⟨(F.get ⟨i, hi⟩).1, fileMode, "blob", k + i⟩
  | [], _, _, i, hi, _ => by simp at hi
  | nf :: F, k, base, 0, hi, hnd => by
    rw [blobEntries, List.foldl_cons]
    simp only [List.map_cons, List.nodup_cons] at hnd
    rw [lookupPath_foldl_notmem _ _ _ (fun e he => by
      intro hcon
      exact hnd.1 (hcon ▸ blobEntries_path_mem F (k + 1) e he))]
    show lookupPath (upsertEntry base (createNewTreeBlob nf.1 fileMode k)) nf.1 = _
    have h := lookupPath_upsert_self base (createNewTreeBlob nf.1 fileMode k)
    rw [show (createNewTreeBlob nf.1 fileMode k).path = nf.1 from rfl] at h
    rw [h]
    rfl
  | nf :: F, k, base, i + 1, hi, hnd => by
    rw [blobEntries, List.foldl_cons]
    simp only [List.map_cons, List.nodup_cons] at hnd
    have ih := lookupPath_blobEntries F (k + 1) (upsertEntry base (createNewTreeBlob nf.1 fileMode k))
      i (by simpa using Nat.lt_of_succ_lt_succ hi) hnd.2
    rw [show ((nf :: F).get ⟨i + 1, hi⟩) = F.get ⟨i, by simpa using Nat.lt_of_succ_lt_succ hi⟩
      from rfl]
    rw [ih]
    have harith : k + 1 + i = k + (i + 1) := by omega
    rw [harith]

/-- The blob store entry at a given position of the blob loop. -/
theorem blobPayloads_alook : ∀ (F : List (String × FileEntry)) (k : Nat) (i : Nat)
    (hi : i < F.length),
    alook (k + i) (blobPayloads F k) = some (b64encodeStr (F.get ⟨i, hi⟩).2.contents)
  | [], _, i, hi => by simp at hi
  | nf :: F, k, 0, hi => by
    rw [blobPayloads]
    rw [show k + 0 = k from rfl, alook_cons_eq]
    rfl
  | nf :: F, k, i + 1, hi => by
    rw [blobPayloads, alook_cons_ne _ _ _ _ (by omega)]
    have ih := blobPayloads_alook F (k + 1) i (by simpa using Nat.lt_of_succ_lt_succ hi)
    rw [show k + (i + 1) = k + 1 + i from by omega, ih]
    rfl

/-! ### C2: the upload-download round trip -/

/-- The contents endpoint's response, computed from the store components of
the state: head commit, its tree, the entry for the path, and the blob. -/
theorem contentsResponse_comp (r2 : Remote) (hd : Nat) (pco : CommitObj)
    (t : List TreeEntry) (name : String) (e : TreeEntry) (pay : String)
    (h1 : r2.head = some hd) (h2 : alook hd r2.commits = some pco)
    (h3 : alook pco.tree r2.trees = some t)
    (h4 : lookupPath t name = some e) (h5 : alook e.sha r2.blobs = some pay) :
    contentsResponse r2 name = Json.jobj [("content", Json.jstr pay), ("sha", Json.jnum e.sha)] := by
  unfold contentsResponse headTree
  rw [h1]
  dsimp only
  rw [h2]
  dsimp only
  rw [h3]
  dsimp only [Option.getD]
  rw [h4]
  dsimp only
  rw [h5]

/-- `getFile`'s response processing on a single-file object whose content
field decodes. -/
theorem getFileResp_content (name pay s : String) (sha : Nat)
    (h : b64decodeStr pay = some s) :
    getFileResp name (Json.jobj [("content", Json.jstr pay), ("sha", Json.jnum sha)]) = .ok s := by
  unfold getFileResp
  dsimp only [jlookup]
  rw [if_pos rfl]
  dsimp only
  rw [h]

/-- C2 (amended): upload followed by download round-trips every entry,
provided the uploaded names avoid the reserved manifest name `.master` and
the remote manifest lists exactly the uploaded names with their (unresolved)
local paths. `writeRemoteFiles` on a dictionary `G` succeeds, and
`readRemoteFiles` against the resulting remote returns exactly `G`:
byte-identical content for every entry. -/
theorem c2_amended (G : List (String × FileEntry)) (ps : List (String × String))
    (home : String) (r : Remote) (c : Nat) (co : CommitObj) (base : List TreeEntry)
    (me : TreeEntry) (payload mtext : String)
    (hb : r.budget = none) (hk : shaKeysOk r)
    (hnd : (G.map Prod.fst).Nodup)
    (hnm : ".master" ∉ G.map Prod.fst)
    (hc : r.head = some c) (hco : alook c r.commits = some co)
    (hbase : alook co.tree r.trees = some base)
    (hme : lookupPath base ".master" = some me)
    (hpay : alook me.sha r.blobs = some payload)
    (hdec : b64decodeStr payload = some mtext)
    (hparse : parseMaster mtext = .ok ps)
    (hlink : List.Forall₂ (fun (p : String × String) (nf : String × FileEntry) =>
      nf.1 = p.1 ∧ nf.2.localPath = pyReplaceTilde home p.2) ps G) :
    (writeRemoteFiles G r).1 = .ok () ∧
    (readRemoteFiles home (writeRemoteFiles G r).2).1 = .ok G := by
  have hw : writeRemoteFiles G r = (.ok (), upState G r c base) :=
    writeRemote_head G r c co base hb hk hc hco hbase
  refine ⟨by rw [hw], ?_⟩
  rw [hw]
  dsimp only
  -- store components of the post-upload state
  have hcm : alook (r.fresh + G.length + 1) (upState G r c base).commits
      = some ⟨r.fresh + G.length, [c], ""⟩ := by
    show alook _ (r.commits ++ _) = _
    rw [alook_append_none _ _ _ (alook_none_of_lt _ _ (fun p hp => by
      have := hk.2.2 p hp; omega)), alook_cons_eq]
  have htr : alook (r.fresh + G.length) (upState G r c base).trees
      = some ((blobEntries G r.fresh).foldl upsertEntry base) := by
    show alook _ (r.trees ++ _) = _
    rw [alook_append_none _ _ _ (alook_none_of_lt _ _ (fun p hp => by
      have := hk.2.1 p hp; omega)), alook_cons_eq]
  have hbl : ∀ i (hi : i < G.length), alook (r.fresh + i) (upState G r c base).blobs
      = some (b64encodeStr (G.get ⟨i, hi⟩).2.contents) := by
    intro i hi
    show alook _ (r.blobs ++ blobPayloads G r.fresh) = _
    rw [alook_append_none _ _ _ (alook_none_of_lt _ _ (fun p hp => by
      have := hk.1 p hp; omega))]
    exact blobPayloads_alook G r.fresh i hi
  have hmb : alook me.sha (upState G r c base).blobs = some payload := by
    show alook _ (r.blobs ++ _) = _
    exact alook_append_left _ _ _ _ hpay
  have hlpm : lookupPath ((blobEntries G r.fresh).foldl upsertEntry base) ".master"
      = some me := by
    rw [lookupPath_foldl_notmem _ _ _ (fun e he => fun hcon =>
      hnm (by rw [← hcon]; exact blobEntries_path_mem G r.fresh e he))]
    exact hme
  -- the `.master` fetch
  have hcrm : contentsResponse (upState G r c base) ".master"
      = Json.jobj [("content", Json.jstr payload), ("sha", Json.jnum me.sha)] :=
    contentsResponse_comp _ _ _ _ _ _ _ rfl hcm htr hlpm hmb
  have hgm : getFile ".master" (upState G r c base)
      = (.ok mtext, { upState G r c base with trace := (upState G r c base).trace ++ [ApiEvent.contentsGet] }) := by
    rw [getFile_run _ _ (show (upState G r c base).budget = none from hb)]
    rw [hcrm, getFileResp_content _ _ _ _ hdec]
  unfold readRemoteFiles
  rw [step_bind_run _ _ _ _ _ hgm]
  -- the per-file fetch loop
  have hfa : List.Forall₂ (fun (p : String × String) (o : String × FileEntry) =>
      o.1 = p.1 ∧ o.2.localPath = pyReplaceTilde home p.2 ∧
        getFileResp p.1 (contentsResponse { upState G r c base with trace := (upState G r c base).trace ++ [ApiEvent.contentsGet] } p.1) = .ok o.2.contents) ps G := by
    have hlen : ps.length = G.length := hlink.length_eq
    have hget := (List.forall₂_iff_get.mp hlink).2
    refine List.forall₂_iff_get.mpr ⟨hlen, fun i h1 h2 => ?_⟩
    obtain ⟨hname, hpath⟩ := hget i h1 h2
    refine ⟨hname, hpath, ?_⟩
    rw [← hname]
    have hcr : contentsResponse { upState G r c base with trace := (upState G r c base).trace ++ [ApiEvent.contentsGet] } (G.get ⟨i, h2⟩).1
        = Json.jobj [("content", Json.jstr (b64encodeStr (G.get ⟨i, h2⟩).2.contents)), ("sha", Json.jnum (r.fresh + i))] := by
      refine contentsResponse_comp _ (r.fresh + G.length + 1) ⟨r.fresh + G.length, [c], ""⟩
        ((blobEntries G r.fresh).foldl upsertEntry base) _
        ⟨(G.get ⟨i, h2⟩).1, fileMode, "blob", r.fresh + i⟩ _ rfl ?_ ?_ ?_ ?_
      · exact hcm
      · exact htr
      · exact lookupPath_blobEntries G r.fresh base i h2 hnd
      · exact hbl i h2
    rw [hcr, getFileResp_content _ _ _ _ (b64decodeStr_b64encodeStr _)]
  rw [fetchLines_ok _ ps G []
    { upState G r c base with trace := (upState G r c base).trace ++ [ApiEvent.contentsGet] }
    home (show Remote.budget _ = none from hb) (parseMaster_lines mtext ps hparse) hfa hnd
    (fun o _ q hq => absurd hq (List.not_mem_nil q))]
  simp

/-- C2 witness: a branch whose manifest lists `notes.txt -> ~/notes.txt`;
uploading the dictionary with content "hello" succeeds and downloading
returns exactly that dictionary, contents byte-identical. -/
theorem c2_witness :
    (writeRemoteFiles [("notes.txt", ⟨"/home/u/notes.txt", "hello"⟩)] ⟨[(3, b64encodeStr "[FILES]\nnotes.txt -> ~/notes.txt - x")], [(0, []), (2, [⟨".master", "100644", "blob", 3⟩])], [(1, ⟨2, [], ""⟩)], some 1, 4, [], none⟩).1 = .ok () ∧
    (readRemoteFiles "/home/u" (writeRemoteFiles [("notes.txt", ⟨"/home/u/notes.txt", "hello"⟩)] ⟨[(3, b64encodeStr "[FILES]\nnotes.txt -> ~/notes.txt - x")], [(0, []), (2, [⟨".master", "100644", "blob", 3⟩])], [(1, ⟨2, [], ""⟩)], some 1, 4, [], none⟩).2).1 = .ok [("notes.txt", ⟨"/home/u/notes.txt", "hello"⟩)] :=
  c2_amended [("notes.txt", ⟨"/home/u/notes.txt", "hello"⟩)] [("notes.txt", "~/notes.txt")]
    "/home/u"
    ⟨[(3, b64encodeStr "[FILES]\nnotes.txt -> ~/notes.txt - x")], [(0, []), (2, [⟨".master", "100644", "blob", 3⟩])], [(1, ⟨2, [], ""⟩)], some 1, 4, [], none⟩
    1 ⟨2, [], ""⟩ [⟨".master", "100644", "blob", 3⟩] ⟨".master", "100644", "blob", 3⟩
    (b64encodeStr "[FILES]\nnotes.txt -> ~/notes.txt - x")
    "[FILES]\nnotes.txt -> ~/notes.txt - x"
    rfl (by decide) (by decide) (by decide) rfl (by decide) (by decide) (by decide) rfl
    (b64decodeStr_b64encodeStr "[FILES]\nnotes.txt -> ~/notes.txt - x") (by decide)
    (List.Forall₂.cons ⟨rfl, by decide⟩ List.Forall₂.nil)
